import Mathlib

/-!
Verification of the volume-resize coordination layer: a shallow embedding of
the controller-side resize cache (volume_resize_map.go), the node-side
fs-resize cache (volume_fs_resize_map.go) and the node-side populator,
together with theorems checking the natural-language specification against
this embedding.

Modelling conventions:
- Go resource quantities are integers; maps keyed by strings are association
  lists; reading an absent quantity key yields the zero value, as in Go.
- Collaborator calls (pod lister, kube client get and update) are modelled as
  function parameters; a lookup returning none models a failed API get, and a
  Boolean oracle models whether an update call succeeds.
- Pointer identity, where a claim is about aliasing and defensive deep
  copies, is modelled by an explicit address: either a heap (a list indexed
  by position, where DeepCopy appends a fresh cell) or a fresh-address
  counter attached to each stored pod snapshot.
-/

/-- Phase of a pod, as reported in its status. -/
inductive PodPhase where
  | Pending | Running | Succeeded | Failed | Unknown
deriving DecidableEq, Repr

/-- Pod status; only the phase is consulted by this layer. -/
structure PodStatus where
  phase : PodPhase
deriving DecidableEq, Repr

/-- A pod record, restricted to the fields this layer reads or writes:
identity (namespace, name, uid), the scheduled node (Spec.NodeName, empty
string when unscheduled), the metadata annotations, and the status. -/
structure Pod where
  name : String
  namespaceName : String
  uid : String
  nodeName : String
  annotations : List (String × String)
  status : PodStatus
deriving DecidableEq, Repr

/-- Phase of a persistent volume claim. -/
inductive ClaimPhase where
  | Pending | Bound | Lost
deriving DecidableEq, Repr

/-- A claim record, restricted to the fields this layer reads or writes. The
spec resource requests and the status capacity are maps from resource name to
quantity; conditions are kept opaque. -/
structure PersistentVolumeClaim where
  name : String
  namespaceName : String
  uid : String
  specRequests : List (String × Int)
  statusCapacity : List (String × Int)
  statusPhase : ClaimPhase
  statusConditions : List String
deriving DecidableEq, Repr

/-- A volume record: its name, the optional claim reference as a
(namespace, name) pair, and the spec capacity map. -/
structure PersistentVolume where
  name : String
  claimRef : Option (String × String)
  specCapacity : List (String × Int)
deriving DecidableEq, Repr

/-- The storage resource name, the only key this layer consults. -/
def resourceStorage : String := "storage"

/-- Association-list lookup, the model of Go map indexing. -/
def lookupAssoc {α : Type} : List (String × α) → String → Option α
  | [], _ => none
  | kv :: rest, k => if kv.1 = k then some kv.2 else lookupAssoc rest k

/-- Association-list insert-or-overwrite, the model of Go map assignment. -/
def insertAssoc {α : Type} : List (String × α) → String → α → List (String × α)
  | [], k, v => [(k, v)]
  | kv :: rest, k, v => if kv.1 = k then (k, v) :: rest else kv :: insertAssoc rest k v

/-- Association-list removal of a key, the model of Go map delete. -/
def eraseAssoc {α : Type} (l : List (String × α)) (k : String) : List (String × α) :=
  l.filter (fun kv => kv.1 ≠ k)

/-- Quantity read from a resource map: Go returns the zero quantity for an
absent key. -/
def qtyGet (l : List (String × Int)) (k : String) : Int :=
  (lookupAssoc l k).getD 0

theorem lookupAssoc_insertAssoc {α : Type} (l : List (String × α)) (k k' : String) (v : α) :
    lookupAssoc (insertAssoc l k v) k' = if k = k' then some v else lookupAssoc l k' := by
  induction l with
  | nil => simp [insertAssoc, lookupAssoc]
  | cons kv rest ih =>
    by_cases h1 : kv.1 = k
    · by_cases h2 : k = k'
      · subst h2; simp [insertAssoc, lookupAssoc, h1]
      · have h3 : ¬ kv.1 = k' := fun h => h2 (h1.symm.trans h)
        simp [insertAssoc, lookupAssoc, h1, h2, h3]
    · by_cases h2 : kv.1 = k'
      · have h3 : ¬ k = k' := fun h => h1 (h2.trans h.symm)
        have h4 : ¬ k' = k := fun h => h3 h.symm
        simp [insertAssoc, lookupAssoc, h1, h2, h3, h4]
      · simp [insertAssoc, lookupAssoc, h1, h2, ih]

theorem lookupAssoc_eraseAssoc {α : Type} (l : List (String × α)) (k k' : String) :
    lookupAssoc (eraseAssoc l k) k' = if k' = k then none else lookupAssoc l k' := by
  induction l with
  | nil => simp [eraseAssoc, lookupAssoc]
  | cons kv rest ih =>
    by_cases h1 : kv.1 = k
    · have he : eraseAssoc (kv :: rest) k = eraseAssoc rest k := by
        simp [eraseAssoc, List.filter_cons, h1]
      rw [he, ih]
      by_cases h2 : k' = k
      · simp [h2]
      · have h3 : ¬ kv.1 = k' := fun h => h2 (h.symm.trans h1)
        simp [h2, lookupAssoc, h3]
    · have he : eraseAssoc (kv :: rest) k = kv :: eraseAssoc rest k := by
        simp [eraseAssoc, List.filter_cons, h1]
      rw [he]
      by_cases h2 : kv.1 = k'
      · have h3 : ¬ k' = k := fun h => h1 (h2.trans h)
        simp [lookupAssoc, h2, h3]
      · simp [lookupAssoc, h2, ih]

theorem lookupAssoc_mem {α : Type} {l : List (String × α)} {k : String} {v : α}
    (h : lookupAssoc l k = some v) : (k, v) ∈ l := by
  induction l with
  | nil => simp [lookupAssoc] at h
  | cons kv rest ih =>
    by_cases h1 : kv.1 = k
    · rw [lookupAssoc, if_pos h1] at h
      have hv : kv.2 = v := Option.some.inj h
      have hkv : (k, v) = kv := by
        cases kv; cases h1; cases hv; rfl
      rw [hkv]; exact List.mem_cons_self _ _
    · rw [lookupAssoc, if_neg h1] at h
      exact List.mem_cons_of_mem _ (ih h)

/-! ## Handshake-signal codec

The codec helper functions (GetVolumeFsResizeAnnotation,
IsVolumeFsResizeAnnotation, GetVolumeUniqueNameFromFsResizeAnnotation in
pkg/volume/util/volumehelper) are not part of the provided sources; they are
modelled from the spec. -/

/-- Modelled from the spec: the fixed annotation key stem shared by the
controller and every node agent. The concrete characters are unspecified by
the spec; a representative constant is used, and no theorem depends on its
value, only on it being one fixed string. -/
def fsResizeAnnStem : String := "volume.alpha.kubernetes.io/fs-resize-"

/-- Modelled from the spec: encode a volume logical name into its handshake
annotation key by prepending the fixed stem (GetVolumeFsResizeAnnotation in
volumehelper, absent from the provided sources). -/
def getVolumeFsResizeAnnKey (volumeName : String) : String :=
  String.mk (fsResizeAnnStem.data ++ volumeName.data)

/-- Modelled from the spec: recognise a handshake annotation key, true
exactly when the key starts with the fixed stem (IsVolumeFsResizeAnnotation
in volumehelper, absent from the provided sources). -/
def isVolumeFsResizeAnnKey (key : String) : Bool :=
  fsResizeAnnStem.data.isPrefixOf key.data

/-- Modelled from the spec: recover the volume logical name from a handshake
annotation key by stripping the fixed stem
(GetVolumeUniqueNameFromFsResizeAnnotation in volumehelper, absent from the
provided sources). -/
def getVolumeUniqueNameFromFsResizeAnnKey (key : String) : String :=
  String.mk (key.data.drop fsResizeAnnStem.data.length)

/-! ## Controller-side resize cache (volume_resize_map.go) -/

/-- PVCWithResizeRequest: the state needed for performing a resize, as stored
in the controller cache. -/
structure PVCWithResizeRequest where
  pvc : PersistentVolumeClaim
  persistentVolume : PersistentVolume
  currentSize : Int
  expectedSize : Int
deriving DecidableEq, Repr

/-- The controller cache backing map: unique claim id (the claim UID) to
pending request. -/
abbrev ResizeMap : Type := List (String × PVCWithResizeRequest)

/-- AddPVCUpdate: validate that the volume is bound to exactly this claim and
that the claim is Bound, then compare the status capacity against the spec
request and insert or overwrite the request keyed by the claim UID. Every
rejected case leaves the map unchanged and signals nothing. -/
def addPVCUpdate (m : ResizeMap) (pvc : PersistentVolumeClaim) (pv : PersistentVolume) : ResizeMap :=
  match pv.claimRef with
  | none => m
  | some cr =>
    if pvc.namespaceName ≠ cr.1 ∨ pvc.name ≠ cr.2 then m
    else if pvc.statusPhase ≠ ClaimPhase.Bound then m
    else
      let pvcSize := qtyGet pvc.specRequests resourceStorage
      let pvcStatusSize := qtyGet pvc.statusCapacity resourceStorage
      if pvcStatusSize ≥ pvcSize then m
      else insertAssoc m pvc.uid ⟨pvc, pv, pvcStatusSize, pvcSize⟩

/-- DeletePVC: remove the entry for the claim UID. -/
def deletePVC (m : ResizeMap) (pvc : PersistentVolumeClaim) : ResizeMap :=
  eraseAssoc m pvc.uid

/-- GetPVCsWithResizeRequest: append every stored request to a batch, then
replace the backing map with an empty one. -/
def getPVCsWithResizeRequest (m : ResizeMap) : List PVCWithResizeRequest × ResizeMap :=
  (m.foldl (fun pvcrs kv => pvcrs ++ [kv.2]) [], [])

/-- Acceptance condition of AddPVCUpdate as the spec words it: the volume
claim reference is present and matches the claim by namespace and name, the
claim phase is Bound, and the status storage capacity is strictly below the
spec storage request. Stated separately from addPVCUpdate so that the
theorem for C3 compares the code path against the spec wording. -/
def addPVCAccepts (pvc : PersistentVolumeClaim) (pv : PersistentVolume) : Bool :=
  (match pv.claimRef with
   | some cr => cr.1 == pvc.namespaceName && cr.2 == pvc.name
   | none => false)
  && pvc.statusPhase == ClaimPhase.Bound
  && decide (qtyGet pvc.statusCapacity resourceStorage < qtyGet pvc.specRequests resourceStorage)

/-! ## Node-side fs-resize cache (volume_fs_resize_map.go)

A Go pod pointer is modelled as an address paired with the pod snapshot it
points to; DeepCopy yields the same snapshot under a fresh address drawn
from a counter. -/

/-- VolumeToResize: one pending filesystem-resize entry. The stored pod is a
pointer, modelled as the pair of the address podAddr and the snapshot pod. -/
structure VolumeToResize where
  podAddr : Nat
  pod : Pod
  volumeName : String
deriving DecidableEq, Repr

/-- The node cache backing map: unique pod name (the pod UID) to the map
from volume logical name to pending entry. -/
abbrev FsResizeMap : Type := List (String × List (String × VolumeToResize))

/-- AddVolumeForPod: insert or overwrite the entry for (pod uid, volume
logical name); a missing inner map is created first. -/
def addVolumeForPod (m : FsResizeMap) (volumeName : String) (podAddr : Nat) (pod : Pod) : FsResizeMap :=
  let podName := pod.uid
  let volumes := (lookupAssoc m podName).getD []
  insertAssoc m podName (insertAssoc volumes volumeName ⟨podAddr, pod, volumeName⟩)

/-- GetVolumesToResize: append every stored entry to a batch over the two
nested loops, then replace the backing map with an empty one. -/
def getVolumesToResize (m : FsResizeMap) : List VolumeToResize × FsResizeMap :=
  (m.foldl (fun acc kv => kv.2.foldl (fun acc2 kv2 => acc2 ++ [kv2.2]) acc) [], [])

/-- All entries of the node cache in map order, written independently of
getVolumesToResize for comparison. -/
def fsEntries (m : FsResizeMap) : List VolumeToResize :=
  (m.map (fun kv => kv.2.map (fun kv2 => kv2.2))).flatten

/-- Two-level lookup into the node cache: a missing inner map reads as the
empty map. -/
def lookupFs (m : FsResizeMap) (uid volumeName : String) : Option VolumeToResize :=
  lookupAssoc ((lookupAssoc m uid).getD []) volumeName

/-! ## Node-side populator (VolumeFsResizeMapPopulator) -/

/-- Modelled from the spec: whether a pod status is terminal
(volumehelper.IsPodTerminated, absent from the provided sources). The pod
argument mirrors the source signature; the spec bases the judgment on the
status. -/
def volumehelperIsPodTerminated (_pod : Pod) (podStatus : PodStatus) : Bool :=
  podStatus.phase == PodPhase.Succeeded || podStatus.phase == PodPhase.Failed

/-- isPodTerminated of the populator: judge by the status provider result
when it has one, else fall back to the status carried on the pod itself. -/
def isPodTerminated (statusOf : String → Option PodStatus) (pod : Pod) : Bool :=
  let podStatus := (statusOf pod.uid).getD pod.status
  volumehelperIsPodTerminated pod podStatus

/-- One annotation step of processPodVolumes: a handshake key whose value
is exactly "yes" enqueues the decoded volume name together with a deep copy
of the pod (same snapshot, fresh address drawn from the counter); any other
annotation is ignored. -/
def ppvStep (pod : Pod) (acc : FsResizeMap × Nat) (kv : String × String) : FsResizeMap × Nat :=
  if isVolumeFsResizeAnnKey kv.1 && kv.2 == "yes" then
    (addVolumeForPod acc.1 (getVolumeUniqueNameFromFsResizeAnnKey kv.1) acc.2 pod, acc.2 + 1)
  else acc

/-- processPodVolumes: scan the pod annotations with ppvStep. -/
def processPodVolumes (m : FsResizeMap) (c : Nat) (pod : Pod) : FsResizeMap × Nat :=
  pod.annotations.foldl (ppvStep pod) (m, c)

/-- One pod step of addNewPods: terminated pods are skipped, the rest have
their volumes processed. -/
def anpStep (statusOf : String → Option PodStatus) (acc : FsResizeMap × Nat)
    (pr : Nat × Pod) : FsResizeMap × Nat :=
  if isPodTerminated statusOf pr.2 then acc else processPodVolumes acc.1 acc.2 pr.2

/-- addNewPods, the body of one populator iteration: for every known pod
that is not terminated, process its volumes. Pods are given as pointers
(address paired with snapshot); c is the next fresh address. -/
def addNewPods (m : FsResizeMap) (c : Nat) (statusOf : String → Option PodStatus)
    (pods : List (Nat × Pod)) : FsResizeMap × Nat :=
  pods.foldl (anpStep statusOf) (m, c)

/-! ## Controller fan-out (MarkForFileSystemResize) and its helpers -/

/-- podHasMarkedForPVCResizing: the pod carries the handshake annotation for
this volume with the exact value "yes". -/
def podHasMarkedForPVCResizing (pod : Pod) (pvcName : String) : Bool :=
  match lookupAssoc pod.annotations (getVolumeFsResizeAnnKey pvcName) with
  | some v => v == "yes"
  | none => false

/-- updatePodAnnotationForPVCResizing: set the handshake annotation for this
volume to "yes" on the pod (creating the annotation map when absent, which
the association-list insert subsumes). The caller sends the result through
the update API call. -/
def updatePodAnnotationForPVCResizing (pod : Pod) (pvcName : String) : Pod :=
  { pod with annotations := insertAssoc pod.annotations (getVolumeFsResizeAnnKey pvcName) "yes" }

/-- First pass of MarkForFileSystemResize: look up every pod through the
lister (returning none aborts the whole call), deep-copy it, skip it when
unscheduled, when its node has not mounted the volume, or when its node is
already marked; a pod already carrying the handshake annotation marks its
node, otherwise the pod is collected for the second pass. -/
def markFirstPass (lister : String → String → Option Pod) (mounted : List String)
    (pvcName : String) :
    List Pod → List Pod → List String → Option (List Pod × List String)
  | [], podObjs, markedNodes => some (podObjs, markedNodes)
  | pod :: rest, podObjs, markedNodes =>
    match lister pod.namespaceName pod.name with
    | none => none
    | some podObj =>
      if podObj.nodeName = "" then
        markFirstPass lister mounted pvcName rest podObjs markedNodes
      else if ¬ mounted.contains podObj.nodeName then
        markFirstPass lister mounted pvcName rest podObjs markedNodes
      else if markedNodes.contains podObj.nodeName then
        markFirstPass lister mounted pvcName rest podObjs markedNodes
      else if podHasMarkedForPVCResizing podObj pvcName then
        markFirstPass lister mounted pvcName rest podObjs (podObj.nodeName :: markedNodes)
      else
        markFirstPass lister mounted pvcName rest (podObjs ++ [podObj]) markedNodes

/-- Second pass of MarkForFileSystemResize: annotate each collected pod
whose node is not yet marked and send it through the update call (whose
success the oracle updateOk decides); a failed update aborts with an error.
Returns the successfully written pods and the error flag. -/
def markSecondPass (updateOk : Pod → Bool) (pvcName : String) :
    List Pod → List String → List Pod × Bool
  | [], _ => ([], false)
  | podObj :: rest, markedNodes =>
    if markedNodes.contains podObj.nodeName then
      markSecondPass updateOk pvcName rest markedNodes
    else
      if updateOk (updatePodAnnotationForPVCResizing podObj pvcName) then
        (updatePodAnnotationForPVCResizing podObj pvcName ::
           (markSecondPass updateOk pvcName rest (podObj.nodeName :: markedNodes)).1,
         (markSecondPass updateOk pvcName rest (podObj.nodeName :: markedNodes)).2)
      else ([], true)

/-- MarkForFileSystemResize: fetch the pods using the volume (given as the
input list), fetch the nodes having it mounted (the mounted list), then run
the two passes. Returns the pods written through the update call and the
error flag. -/
def markForFileSystemResize (lister : String → String → Option Pod) (mounted : List String)
    (updateOk : Pod → Bool) (pvcName : String) (pods : List Pod) : List Pod × Bool :=
  if pods.isEmpty then ([], false)
  else
    match markFirstPass lister mounted pvcName pods [] [] with
    | none => ([], true)
    | some (podObjs, markedNodes) => markSecondPass updateOk pvcName podObjs markedNodes

/-! ## Node-side clear (MarkAsFileSystemResized) -/

/-- MarkAsFileSystemResized: a nil pod argument is a successful no-op; the
pod is re-fetched through the API (getPod, none modelling a failed get); a
fetched pod no longer carrying the handshake annotation is a successful
no-op; otherwise exactly that annotation key is deleted and the pod is sent
through the update call. Returns the update payload, if one was issued, and
the error flag. -/
def markAsFileSystemResized (getPod : String → String → Option Pod) (updateOk : Pod → Bool)
    (pod : Option Pod) (volumeName : String) : Option Pod × Bool :=
  match pod with
  | none => (none, false)
  | some p =>
    match getPod p.namespaceName p.name with
    | none => (none, true)
    | some podObj =>
      let annKey := getVolumeFsResizeAnnKey volumeName
      match lookupAssoc podObj.annotations annKey with
      | none => (none, false)
      | some _ =>
        let podObj2 := { podObj with annotations := eraseAssoc podObj.annotations annKey }
        (some podObj2, !(updateOk podObj2))

/-! ## Heap-level models of the mutating controller operations

These model the same source functions at the level of object identity: a
heap is a list of records indexed by address, DeepCopy appends a fresh cell
holding the same snapshot, and every field mutation of the source is a write
to the address being mutated. They support the frame claims about defensive
copying. -/

/-- UpdatePVSize at heap level: read the cached volume, deep-copy it (a
fresh cell), then write the new storage capacity into the copy. The merge
patch sent to the API is built from the copy; it does not touch the heap.
Returns the heap and the address of the copy. -/
def updatePVSize (heap : List PersistentVolume) (pvAddr : Nat) (newSize : Int) :
    List PersistentVolume × Nat :=
  match heap[pvAddr]? with
  | none => (heap, pvAddr)
  | some oldPv =>
    ((heap ++ [oldPv]).set heap.length
       { oldPv with specCapacity := insertAssoc oldPv.specCapacity resourceStorage newSize },
     heap.length)

/-- updatePVCCapacityAndConditions at heap level: read the cached claim,
deep-copy it, then write the new status capacity and the given condition
list into the copy, which is then sent through the status-update call.
Returns the heap and the address of the copy. -/
def updatePVCCapacityAndConditions (heap : List PersistentVolumeClaim) (pvcAddr : Nat)
    (newSize : Int) (pvcConditions : List String) : List PersistentVolumeClaim × Nat :=
  match heap[pvcAddr]? with
  | none => (heap, pvcAddr)
  | some claim =>
    ((heap ++ [claim]).set heap.length
       { claim with
           statusCapacity := insertAssoc claim.statusCapacity resourceStorage newSize,
           statusConditions := pvcConditions },
     heap.length)

/-- MarkAsResized: update the claim capacity and clear the resize-related
conditions by passing the empty condition list. -/
def markAsResized (heap : List PersistentVolumeClaim) (pvcAddr : Nat) (newSize : Int) :
    List PersistentVolumeClaim × Nat :=
  updatePVCCapacityAndConditions heap pvcAddr newSize []

/-- First pass of MarkForFileSystemResize at heap level: the lister returns
the address of the listed pod; the pod is deep-copied at once (a fresh
cell) and every later check reads the copy. Collected pods are the clone
addresses. -/
def markFirstPassOnHeap (lister : String → String → Option Nat) (mounted : List String)
    (pvcName : String) :
    List Pod → List Pod → List Nat → List String → List Pod × Option (List Nat × List String)
  | [], heap, podObjs, markedNodes => (heap, some (podObjs, markedNodes))
  | pod :: rest, heap, podObjs, markedNodes =>
    match lister pod.namespaceName pod.name with
    | none => (heap, none)
    | some addr =>
      match heap[addr]? with
      | none => (heap, none)
      | some orig =>
        if orig.nodeName = "" then
          markFirstPassOnHeap lister mounted pvcName rest (heap ++ [orig]) podObjs markedNodes
        else if ¬ mounted.contains orig.nodeName then
          markFirstPassOnHeap lister mounted pvcName rest (heap ++ [orig]) podObjs markedNodes
        else if markedNodes.contains orig.nodeName then
          markFirstPassOnHeap lister mounted pvcName rest (heap ++ [orig]) podObjs markedNodes
        else if podHasMarkedForPVCResizing orig pvcName then
          markFirstPassOnHeap lister mounted pvcName rest (heap ++ [orig]) podObjs (orig.nodeName :: markedNodes)
        else
          markFirstPassOnHeap lister mounted pvcName rest (heap ++ [orig]) (podObjs ++ [heap.length]) markedNodes

/-- Second pass of MarkForFileSystemResize at heap level: the annotation
mutation writes to the clone address before the update call is issued, so a
failed update leaves the clone mutated but never touches the listed pod. -/
def markSecondPassOnHeap (updateOk : Pod → Bool) (pvcName : String) :
    List Nat → List Pod → List String → List Pod × Bool
  | [], heap, _ => (heap, false)
  | addr :: rest, heap, markedNodes =>
    match heap[addr]? with
    | none => (heap, true)
    | some podObj =>
      if markedNodes.contains podObj.nodeName then
        markSecondPassOnHeap updateOk pvcName rest heap markedNodes
      else
        if updateOk (updatePodAnnotationForPVCResizing podObj pvcName) then
          markSecondPassOnHeap updateOk pvcName rest
            (heap.set addr (updatePodAnnotationForPVCResizing podObj pvcName))
            (podObj.nodeName :: markedNodes)
        else (heap.set addr (updatePodAnnotationForPVCResizing podObj pvcName), true)

/-- MarkForFileSystemResize at heap level. -/
def markForFileSystemResizeOnHeap (lister : String → String → Option Nat)
    (mounted : List String) (updateOk : Pod → Bool) (pvcName : String)
    (pods : List Pod) (heap : List Pod) : List Pod × Bool :=
  if pods.isEmpty then (heap, false)
  else
    match markFirstPassOnHeap lister mounted pvcName pods heap [] [] with
    | (heap1, none) => (heap1, true)
    | (heap1, some (podObjs, markedNodes)) =>
      markSecondPassOnHeap updateOk pvcName podObjs heap1 markedNodes

/-! ## Shared fold lemmas for the drain operations -/

theorem foldl_append_values {α β : Type} (f : α → β) (l : List α) (acc : List β) :
    l.foldl (fun acc2 x => acc2 ++ [f x]) acc = acc ++ l.map f := by
  induction l generalizing acc with
  | nil => simp
  | cons x rest ih => simp [List.foldl, ih]

theorem foldl_nested_entries (m : FsResizeMap) (acc : List VolumeToResize) :
    m.foldl (fun acc1 kv => kv.2.foldl (fun acc2 kv2 => acc2 ++ [kv2.2]) acc1) acc
      = acc ++ fsEntries m := by
  induction m generalizing acc with
  | nil => simp [fsEntries]
  | cons kv rest ih =>
    simp only [List.foldl, fsEntries, List.map_cons, List.flatten_cons]
    rw [foldl_append_values, ih]
    simp [fsEntries, List.append_assoc]

/-- C1: each drain operation returns exactly the entries present in the
cache at the call and leaves the cache empty: the controller batch equals
the list of stored requests, the node batch holds every stored entry with
its original multiplicity, the post-drain backing maps are empty, and every
lookup into them misses, so no entry is lost or duplicated between batch and
post-drain cache. -/
theorem drain_returns_all_and_empties (m : ResizeMap) (mn : FsResizeMap) :
    (getPVCsWithResizeRequest m).2 = [] ∧
    (getPVCsWithResizeRequest m).1 = m.map (fun kv => kv.2) ∧
    (∀ k, lookupAssoc (getPVCsWithResizeRequest m).2 k = none) ∧
    (getVolumesToResize mn).2 = [] ∧
    (∀ e : VolumeToResize, (getVolumesToResize mn).1.count e = (fsEntries mn).count e) ∧
    (∀ uid v, lookupFs (getVolumesToResize mn).2 uid v = none) := by
  refine ⟨rfl, ?_, fun k => rfl, rfl, ?_, fun uid v => rfl⟩
  · show m.foldl (fun pvcrs kv => pvcrs ++ [kv.2]) [] = m.map (fun kv => kv.2)
    rw [foldl_append_values]; rfl
  · intro e
    show (mn.foldl (fun acc1 kv => kv.2.foldl (fun acc2 kv2 => acc2 ++ [kv2.2]) acc1) []).count e
          = (fsEntries mn).count e
    rw [foldl_nested_entries]; rfl

/-- C3: AddPVCUpdate inserts or overwrites, keyed by the claim UID, a
request whose current size is the status storage capacity and whose
expected size is the spec storage request, exactly when the volume claim
reference matches the claim, the claim is Bound and the status capacity is
strictly below the spec request (the condition addPVCAccepts, worded as the
spec words it); in every other case every lookup into the cache is
unchanged, and nothing is signalled. -/
theorem addPVCUpdate_characterization (m : ResizeMap) (pvc : PersistentVolumeClaim)
    (pv : PersistentVolume) (k : String) :
    lookupAssoc (addPVCUpdate m pvc pv) k =
      if addPVCAccepts pvc pv ∧ k = pvc.uid
      then some ⟨pvc, pv, qtyGet pvc.statusCapacity resourceStorage,
                 qtyGet pvc.specRequests resourceStorage⟩
      else lookupAssoc m k := by
  unfold addPVCUpdate addPVCAccepts
  cases hcr : pv.claimRef with
  | none => simp
  | some cr =>
    by_cases hns : pvc.namespaceName = cr.1
    · by_cases hn : pvc.name = cr.2
      · by_cases hph : pvc.statusPhase = ClaimPhase.Bound
        · by_cases hsz : qtyGet pvc.statusCapacity resourceStorage ≥ qtyGet pvc.specRequests resourceStorage
          · have hlt : ¬ qtyGet pvc.statusCapacity resourceStorage < qtyGet pvc.specRequests resourceStorage :=
              not_lt.mpr hsz
            simp [hns, hn, hph, hsz, hlt]
          · have hlt : qtyGet pvc.statusCapacity resourceStorage < qtyGet pvc.specRequests resourceStorage :=
              lt_of_not_ge hsz
            by_cases hk : k = pvc.uid
            · simp [hns, hn, hph, hlt, hsz, lookupAssoc_insertAssoc, hk]
            · have hk2 : ¬ pvc.uid = k := fun h => hk h.symm
              simp [hns, hn, hph, hlt, hsz, lookupAssoc_insertAssoc, hk, hk2]
        · simp [hns, hn, hph]
      · have hn2 : ¬ cr.2 = pvc.name := fun h => hn h.symm
        simp [hns, hn, hn2]
    · have hns2 : ¬ cr.1 = pvc.namespaceName := fun h => hns h.symm
      simp [hns, hns2]

/-- C4: the handshake-signal codec is an exact inverse pair: decoding an
encoded volume name recognises the key and recovers the name; every key the
decoder recognises was produced by the encoder (equivalently, decoding any
key not produced by encode reports failure); and a signal counts as pending
exactly when the annotation holds the sentinel value "yes" — any other
value or an absent key means not pending. -/
theorem codec_roundtrip_and_pending :
    (∀ name : String,
       isVolumeFsResizeAnnKey (getVolumeFsResizeAnnKey name) = true ∧
       getVolumeUniqueNameFromFsResizeAnnKey (getVolumeFsResizeAnnKey name) = name) ∧
    (∀ key : String, isVolumeFsResizeAnnKey key = true →
       ∃ name, getVolumeFsResizeAnnKey name = key) ∧
    (∀ (pod : Pod) (v : String),
       podHasMarkedForPVCResizing pod v = true ↔
       lookupAssoc pod.annotations (getVolumeFsResizeAnnKey v) = some "yes") := by
  refine ⟨fun name => ⟨?_, ?_⟩, fun key hk => ?_, fun pod v => ?_⟩
  · simp [isVolumeFsResizeAnnKey, getVolumeFsResizeAnnKey, List.isPrefixOf_iff_prefix]
  · cases name with
    | mk data =>
      simp [getVolumeUniqueNameFromFsResizeAnnKey, getVolumeFsResizeAnnKey, List.drop_left]
  · rw [isVolumeFsResizeAnnKey, List.isPrefixOf_iff_prefix] at hk
    obtain ⟨t, ht⟩ := hk
    refine ⟨String.mk t, ?_⟩
    cases key with
    | mk data =>
      simp only [getVolumeFsResizeAnnKey]
      exact congrArg String.mk ht
  · unfold podHasMarkedForPVCResizing
    cases h : lookupAssoc pod.annotations (getVolumeFsResizeAnnKey v) with
    | none => simp
    | some val => simp

/-- Witness for C4 at concrete inputs: the key built from the stem and the
name pv1 is recognised and decodes back. -/
theorem codec_roundtrip_witness :
    ∃ name, getVolumeFsResizeAnnKey name = "volume.alpha.kubernetes.io/fs-resize-pv1" :=
  codec_roundtrip_and_pending.2.1 "volume.alpha.kubernetes.io/fs-resize-pv1" (by decide)

/-- C9: clearing an already-cleared signal is a successful no-op. A nil pod
argument returns success without an update; a re-fetched pod that no longer
carries the handshake annotation for the volume returns success without an
update; and when the fetched pod still carries the annotation, exactly that
annotation key is removed from the update payload, every other key being
left as fetched. -/
theorem markAsFileSystemResized_clear_noop
    (getPod : String → String → Option Pod) (updateOk : Pod → Bool)
    (p podObj : Pod) (vn : String) :
    (markAsFileSystemResized getPod updateOk none vn = (none, false)) ∧
    (getPod p.namespaceName p.name = some podObj →
      lookupAssoc podObj.annotations (getVolumeFsResizeAnnKey vn) = none →
      markAsFileSystemResized getPod updateOk (some p) vn = (none, false)) ∧
    (∀ val, getPod p.namespaceName p.name = some podObj →
      lookupAssoc podObj.annotations (getVolumeFsResizeAnnKey vn) = some val →
      ∃ upd, markAsFileSystemResized getPod updateOk (some p) vn = (some upd, !(updateOk upd)) ∧
        (∀ k2, lookupAssoc upd.annotations k2 =
          if k2 = getVolumeFsResizeAnnKey vn then none
          else lookupAssoc podObj.annotations k2)) := by
  refine ⟨rfl, fun hget hann => ?_, fun val hget hann => ?_⟩
  · unfold markAsFileSystemResized
    simp only [hget, hann]
  · refine ⟨{ podObj with
        annotations := eraseAssoc podObj.annotations (getVolumeFsResizeAnnKey vn) }, ?_, ?_⟩
    · unfold markAsFileSystemResized
      simp only [hget, hann]
    · intro k2
      exact lookupAssoc_eraseAssoc podObj.annotations (getVolumeFsResizeAnnKey vn) k2

/-- Witness for C9 at concrete inputs: a pod whose re-fetched record carries
the annotation gets an update removing exactly that key, with another key
kept. -/
theorem markAsFileSystemResized_clear_noop_witness :
    ∃ upd,
      markAsFileSystemResized
        (fun _ _ => some
          { name := "a", namespaceName := "d", uid := "u1", nodeName := "n1",
            annotations := [(getVolumeFsResizeAnnKey "pv1", "yes"), ("other", "x")],
            status := ⟨PodPhase.Running⟩ })
        (fun _ => true)
        (some { name := "a", namespaceName := "d", uid := "u1", nodeName := "n1",
                annotations := [], status := ⟨PodPhase.Running⟩ })
        "pv1" = (some upd, !true) ∧
      (∀ k2, lookupAssoc upd.annotations k2 =
        if k2 = getVolumeFsResizeAnnKey "pv1" then none
        else lookupAssoc [(getVolumeFsResizeAnnKey "pv1", "yes"), ("other", "x")] k2) :=
  (markAsFileSystemResized_clear_noop
    (fun _ _ => some
      { name := "a", namespaceName := "d", uid := "u1", nodeName := "n1",
        annotations := [(getVolumeFsResizeAnnKey "pv1", "yes"), ("other", "x")],
        status := ⟨PodPhase.Running⟩ })
    (fun _ => true)
    { name := "a", namespaceName := "d", uid := "u1", nodeName := "n1",
      annotations := [], status := ⟨PodPhase.Running⟩ }
    { name := "a", namespaceName := "d", uid := "u1", nodeName := "n1",
      annotations := [(getVolumeFsResizeAnnKey "pv1", "yes"), ("other", "x")],
      status := ⟨PodPhase.Running⟩ }
    "pv1").2.2 "yes" rfl rfl

/-! ## Frame lemmas: mutation only ever touches freshly allocated copies -/

theorem updatePVSize_frame (heap : List PersistentVolume) (pvAddr : Nat) (s : Int)
    (i : Nat) (hi : i < heap.length) :
    (updatePVSize heap pvAddr s).1[i]? = heap[i]? := by
  unfold updatePVSize
  cases h : heap[pvAddr]? with
  | none => rfl
  | some oldPv =>
    have hne : heap.length ≠ i := ne_of_gt hi
    show ((heap ++ [oldPv]).set heap.length
      { oldPv with specCapacity := insertAssoc oldPv.specCapacity resourceStorage s })[i]? = heap[i]?
    rw [List.getElem?_set_ne hne, List.getElem?_append_left hi]

theorem updatePVCCapacityAndConditions_frame (heap : List PersistentVolumeClaim)
    (pvcAddr : Nat) (s : Int) (conds : List String) (i : Nat) (hi : i < heap.length) :
    (updatePVCCapacityAndConditions heap pvcAddr s conds).1[i]? = heap[i]? := by
  unfold updatePVCCapacityAndConditions
  cases h : heap[pvcAddr]? with
  | none => rfl
  | some claim =>
    have hne : heap.length ≠ i := ne_of_gt hi
    show ((heap ++ [claim]).set heap.length
      { claim with
          statusCapacity := insertAssoc claim.statusCapacity resourceStorage s,
          statusConditions := conds })[i]? = heap[i]?
    rw [List.getElem?_set_ne hne, List.getElem?_append_left hi]

theorem markFirstPassOnHeap_frame (lister : String → String → Option Nat)
    (mounted : List String) (pvcName : String) (N : Nat) (pods : List Pod) :
    ∀ (heap : List Pod) (podObjs : List Nat) (markedNodes : List String),
      N ≤ heap.length → (∀ a ∈ podObjs, N ≤ a) →
      (∃ ext, (markFirstPassOnHeap lister mounted pvcName pods heap podObjs markedNodes).1
                = heap ++ ext) ∧
      (∀ objs marked,
        (markFirstPassOnHeap lister mounted pvcName pods heap podObjs markedNodes).2
          = some (objs, marked) →
        ∀ a ∈ objs, N ≤ a) := by
  induction pods with
  | nil =>
    intro heap podObjs markedNodes hN hobjs
    refine ⟨⟨[], by simp [markFirstPassOnHeap]⟩, ?_⟩
    intro objs marked h a ha
    simp [markFirstPassOnHeap] at h
    exact hobjs a (h.1 ▸ ha)
  | cons pod rest ih =>
    intro heap podObjs markedNodes hN hobjs
    unfold markFirstPassOnHeap
    split
    · refine ⟨⟨[], by simp⟩, ?_⟩
      intro objs marked h; simp at h
    · rename_i addr hl
      split
      · refine ⟨⟨[], by simp⟩, ?_⟩
        intro objs marked h; simp at h
      · rename_i orig heq
        have hN1 : N ≤ (heap ++ [orig]).length := by
          rw [List.length_append]; omega
        have hobjs1 : ∀ a ∈ podObjs ++ [heap.length], N ≤ a := by
          intro a ha
          rcases List.mem_append.mp ha with h | h
          · exact hobjs a h
          · have : a = heap.length := by simpa using h
            omega
        have step : ∀ (objs2 : List Nat) (marked2 : List String),
            (∀ a ∈ objs2, N ≤ a) →
            (∃ ext,
              (markFirstPassOnHeap lister mounted pvcName rest (heap ++ [orig]) objs2 marked2).1
                = heap ++ ext) ∧
            (∀ objs marked,
              (markFirstPassOnHeap lister mounted pvcName rest (heap ++ [orig]) objs2 marked2).2
                = some (objs, marked) →
              ∀ a ∈ objs, N ≤ a) := by
          intro objs2 marked2 hobjs2
          obtain ⟨⟨ext, hext⟩, hsnd⟩ := ih (heap ++ [orig]) objs2 marked2 hN1 hobjs2
          exact ⟨⟨orig :: ext, by rw [hext, List.append_assoc]; rfl⟩, hsnd⟩
        split
        · exact step podObjs markedNodes hobjs
        · split
          · exact step podObjs markedNodes hobjs
          · split
            · exact step podObjs markedNodes hobjs
            · split
              · exact step podObjs (orig.nodeName :: markedNodes) hobjs
              · exact step (podObjs ++ [heap.length]) markedNodes hobjs1

theorem markSecondPassOnHeap_frame (updateOk : Pod → Bool) (pvcName : String) (N : Nat)
    (objs : List Nat) :
    ∀ (heap : List Pod) (markedNodes : List String),
      (∀ a ∈ objs, N ≤ a) → ∀ i, i < N →
      (markSecondPassOnHeap updateOk pvcName objs heap markedNodes).1[i]? = heap[i]? := by
  induction objs with
  | nil => intro heap markedNodes hobjs i hi; rfl
  | cons addr rest ih =>
    intro heap markedNodes hobjs i hi
    have haddr : N ≤ addr := hobjs addr (List.mem_cons_self _ _)
    have hrest : ∀ a ∈ rest, N ≤ a := fun a ha => hobjs a (List.mem_cons_of_mem _ ha)
    have hne : addr ≠ i := by omega
    unfold markSecondPassOnHeap
    split
    · rfl
    · rename_i podObj heq
      split
      · exact ih heap markedNodes hrest i hi
      · split
        · rw [ih (heap.set addr (updatePodAnnotationForPVCResizing podObj pvcName))
              (podObj.nodeName :: markedNodes) hrest i hi]
          exact List.getElem?_set_ne hne
        · exact List.getElem?_set_ne hne

/-- C7: no mutating operation edits a record it received or holds in the
cache in place: UpdatePVSize, updatePVCCapacityAndConditions (hence
MarkAsResized) and MarkForFileSystemResize write only to freshly allocated
deep copies, so after any of these calls every pre-existing heap cell — in
particular every cached or listed record — is unchanged in every field. -/
theorem mutation_on_deep_copies_only :
    (∀ (heapPV : List PersistentVolume) (pvAddr : Nat) (s : Int) (i : Nat),
      i < heapPV.length → (updatePVSize heapPV pvAddr s).1[i]? = heapPV[i]?) ∧
    (∀ (heapPVC : List PersistentVolumeClaim) (pvcAddr : Nat) (s : Int)
       (conds : List String) (i : Nat),
      i < heapPVC.length →
      (updatePVCCapacityAndConditions heapPVC pvcAddr s conds).1[i]? = heapPVC[i]?) ∧
    (∀ (heapPVC : List PersistentVolumeClaim) (pvcAddr : Nat) (s : Int) (i : Nat),
      i < heapPVC.length → (markAsResized heapPVC pvcAddr s).1[i]? = heapPVC[i]?) ∧
    (∀ (lister : String → String → Option Nat) (mounted : List String)
       (updateOk : Pod → Bool) (pvcName : String) (pods : List Pod) (heap : List Pod) (i : Nat),
      i < heap.length →
      (markForFileSystemResizeOnHeap lister mounted updateOk pvcName pods heap).1[i]?
        = heap[i]?) := by
  refine ⟨updatePVSize_frame, updatePVCCapacityAndConditions_frame, ?_, ?_⟩
  · intro heapPVC pvcAddr s i hi
    unfold markAsResized
    exact updatePVCCapacityAndConditions_frame heapPVC pvcAddr s [] i hi
  · intro lister mounted updateOk pvcName pods heap i hi
    unfold markForFileSystemResizeOnHeap
    obtain ⟨⟨ext, hext⟩, hsnd⟩ :=
      markFirstPassOnHeap_frame lister mounted pvcName heap.length pods heap [] []
        (le_refl _) (by intro a ha; simp at ha)
    split
    · rfl
    · split
      · rename_i heap1 hfp
        rw [hfp] at hext
        show heap1[i]? = heap[i]?
        rw [show heap1 = heap ++ ext from hext, List.getElem?_append_left hi]
      · rename_i heap1 podObjs markedNodes hfp
        rw [hfp] at hext
        have hobjs : ∀ a ∈ podObjs, heap.length ≤ a := by
          refine hsnd podObjs markedNodes ?_
          rw [hfp]
        rw [markSecondPassOnHeap_frame updateOk pvcName heap.length podObjs heap1
            markedNodes hobjs i hi]
        show heap1[i]? = heap[i]?
        rw [show heap1 = heap ++ ext from hext, List.getElem?_append_left hi]

/-- Witness for C7 at concrete inputs: each operation run on a one-cell
heap leaves the original cell readable unchanged. -/
theorem mutation_on_deep_copies_only_witness :
    (updatePVSize [{ name := "pv1", claimRef := none, specCapacity := [] }] 0 7).1[0]?
      = [({ name := "pv1", claimRef := none, specCapacity := [] } : PersistentVolume)][0]? ∧
    (updatePVCCapacityAndConditions
        [{ name := "c", namespaceName := "d", uid := "u", specRequests := [],
           statusCapacity := [], statusPhase := ClaimPhase.Bound, statusConditions := [] }]
        0 7 []).1[0]?
      = [({ name := "c", namespaceName := "d", uid := "u", specRequests := [],
            statusCapacity := [], statusPhase := ClaimPhase.Bound,
            statusConditions := [] } : PersistentVolumeClaim)][0]? ∧
    (markAsResized
        [{ name := "c", namespaceName := "d", uid := "u", specRequests := [],
           statusCapacity := [], statusPhase := ClaimPhase.Bound, statusConditions := [] }]
        0 7).1[0]?
      = [({ name := "c", namespaceName := "d", uid := "u", specRequests := [],
            statusCapacity := [], statusPhase := ClaimPhase.Bound,
            statusConditions := [] } : PersistentVolumeClaim)][0]? ∧
    (markForFileSystemResizeOnHeap (fun _ _ => some 0) ["n1"] (fun _ => true) "v"
        [{ name := "a", namespaceName := "d", uid := "u1", nodeName := "n1",
           annotations := [], status := ⟨PodPhase.Running⟩ }]
        [{ name := "a", namespaceName := "d", uid := "u1", nodeName := "n1",
           annotations := [], status := ⟨PodPhase.Running⟩ }]).1[0]?
      = [({ name := "a", namespaceName := "d", uid := "u1", nodeName := "n1",
            annotations := [], status := ⟨PodPhase.Running⟩ } : Pod)][0]? :=
  ⟨mutation_on_deep_copies_only.1 _ 0 7 0 (by decide),
   mutation_on_deep_copies_only.2.1 _ 0 7 [] 0 (by decide),
   mutation_on_deep_copies_only.2.2.1 _ 0 7 0 (by decide),
   mutation_on_deep_copies_only.2.2.2 _ _ _ _ _ _ 0 (by decide)⟩

/-! ## Lemmas for the value-level fan-out -/

theorem markFirstPass_none_of_lookup_failure (lister : String → String → Option Pod)
    (mounted : List String) (pvcName : String) (pods : List Pod) :
    ∀ (podObjs : List Pod) (markedNodes : List String),
      (∃ p ∈ pods, lister p.namespaceName p.name = none) →
      markFirstPass lister mounted pvcName pods podObjs markedNodes = none := by
  induction pods with
  | nil =>
    intro podObjs markedNodes h
    obtain ⟨p, hp, _⟩ := h
    simp at hp
  | cons pod rest ih =>
    intro podObjs markedNodes h
    unfold markFirstPass
    split
    · rfl
    · rename_i podObj hl
      have h2 : ∃ p ∈ rest, lister p.namespaceName p.name = none := by
        obtain ⟨p, hp, hnone⟩ := h
        rcases List.mem_cons.mp hp with rfl | hmem
        · rw [hl] at hnone; exact absurd hnone (by simp)
        · exact ⟨p, hmem, hnone⟩
      split
      · exact ih _ _ h2
      · split
        · exact ih _ _ h2
        · split
          · exact ih _ _ h2
          · split
            · exact ih _ _ h2
            · exact ih _ _ h2

/-- C8: all pod lookups of the first pass complete before any annotation
update of the second pass is issued, so a failing lookup for any pod using
the volume makes the whole call return an error with no write issued —
persistent state is unchanged on a lookup error. -/
theorem lookup_failure_aborts_before_writes (lister : String → String → Option Pod)
    (mounted : List String) (updateOk : Pod → Bool) (pvcName : String) (pods : List Pod) :
    (∃ p ∈ pods, lister p.namespaceName p.name = none) →
    markForFileSystemResize lister mounted updateOk pvcName pods = ([], true) := by
  intro h
  unfold markForFileSystemResize
  have hne : pods.isEmpty = false := by
    obtain ⟨p, hp, _⟩ := h
    cases pods with
    | nil => simp at hp
    | cons a l => rfl
  rw [hne]
  simp only [Bool.false_eq_true, if_false]
  rw [markFirstPass_none_of_lookup_failure lister mounted pvcName pods [] [] h]

/-- Witness for C8 at a concrete input: one pod whose lookup fails aborts
the call with no write. -/
theorem lookup_failure_aborts_before_writes_witness :
    markForFileSystemResize (fun _ _ => none) ["n1"] (fun _ => true) "v"
      [{ name := "a", namespaceName := "d", uid := "u1", nodeName := "n1",
         annotations := [], status := ⟨PodPhase.Running⟩ }] = ([], true) :=
  lookup_failure_aborts_before_writes _ _ _ _ _
    ⟨{ name := "a", namespaceName := "d", uid := "u1", nodeName := "n1",
       annotations := [], status := ⟨PodPhase.Running⟩ }, by simp, rfl⟩

/-- C10: a pod whose fs-resize annotation for the volume exists with any
value other than exactly "yes" is treated as unmarked: the marked test
reports false, the annotation update overwrites the value with "yes", and
in the fan-out such a pod does not make its node count as already marked —
when it is the selected pod its annotation value is overwritten to "yes"
and it is written. -/
theorem nonyes_value_treated_as_unmarked (pod q : Pod) (val pvcName : String)
    (lister : String → String → Option Pod) (mounted : List String) (updateOk : Pod → Bool) :
    (lookupAssoc pod.annotations (getVolumeFsResizeAnnKey pvcName) = some val → val ≠ "yes" →
      podHasMarkedForPVCResizing pod pvcName = false) ∧
    (lookupAssoc (updatePodAnnotationForPVCResizing pod pvcName).annotations
        (getVolumeFsResizeAnnKey pvcName) = some "yes") ∧
    (lister pod.namespaceName pod.name = some q →
      lookupAssoc q.annotations (getVolumeFsResizeAnnKey pvcName) = some val → val ≠ "yes" →
      q.nodeName ≠ "" → mounted.contains q.nodeName = true →
      updateOk (updatePodAnnotationForPVCResizing q pvcName) = true →
      markForFileSystemResize lister mounted updateOk pvcName [pod] =
        ([updatePodAnnotationForPVCResizing q pvcName], false)) := by
  refine ⟨fun hl hv => ?_, ?_, fun hlist hl hv hnode hmount hupd => ?_⟩
  · unfold podHasMarkedForPVCResizing
    rw [hl]
    simp [hv]
  · unfold updatePodAnnotationForPVCResizing
    simp [lookupAssoc_insertAssoc]
  · have hmarked : podHasMarkedForPVCResizing q pvcName = false := by
      unfold podHasMarkedForPVCResizing; rw [hl]; simp [hv]
    unfold markForFileSystemResize
    simp only [List.isEmpty_cons, Bool.false_eq_true, if_false]
    have hfp : markFirstPass lister mounted pvcName [pod] [] [] = some ([q], []) := by
      unfold markFirstPass
      simp only [hlist]
      rw [if_neg hnode, if_neg (by simp; exact List.mem_of_elem_eq_true hmount),
          if_neg (by simp), if_neg (by simp [hmarked])]
      simp [markFirstPass]
    rw [hfp]
    show markSecondPass updateOk pvcName [q] [] =
      ([updatePodAnnotationForPVCResizing q pvcName], false)
    unfold markSecondPass
    rw [if_neg (by simp), if_pos hupd]
    simp [markSecondPass]

/-- Witness for C10 at a concrete input: a pod carrying the annotation with
value no is selected and rewritten to yes. -/
theorem nonyes_value_treated_as_unmarked_witness :
    markForFileSystemResize
      (fun _ _ => some
        { name := "a", namespaceName := "d", uid := "u1", nodeName := "n1",
          annotations := [(getVolumeFsResizeAnnKey "v", "no")], status := ⟨PodPhase.Running⟩ })
      ["n1"] (fun _ => true) "v"
      [{ name := "a", namespaceName := "d", uid := "u1", nodeName := "n1",
         annotations := [(getVolumeFsResizeAnnKey "v", "no")], status := ⟨PodPhase.Running⟩ }] =
      ([updatePodAnnotationForPVCResizing
          { name := "a", namespaceName := "d", uid := "u1", nodeName := "n1",
            annotations := [(getVolumeFsResizeAnnKey "v", "no")], status := ⟨PodPhase.Running⟩ }
          "v"], false) :=
  (nonyes_value_treated_as_unmarked
    { name := "a", namespaceName := "d", uid := "u1", nodeName := "n1",
      annotations := [(getVolumeFsResizeAnnKey "v", "no")], status := ⟨PodPhase.Running⟩ }
    { name := "a", namespaceName := "d", uid := "u1", nodeName := "n1",
      annotations := [(getVolumeFsResizeAnnKey "v", "no")], status := ⟨PodPhase.Running⟩ }
    "no" "v" _ ["n1"] (fun _ => true)).2.2 rfl (by simp [lookupAssoc]) (by decide)
    (by decide) (by decide) rfl

/-! ## Step equations for the value-level fan-out passes -/

theorem markFirstPass_cons_err (lister : String → String → Option Pod) (mounted : List String)
    (pvcName : String) (pod : Pod) (rest : List Pod) (podObjs : List Pod) (marked : List String)
    (h : lister pod.namespaceName pod.name = none) :
    markFirstPass lister mounted pvcName (pod :: rest) podObjs marked = none := by
  simp only [markFirstPass, h]

theorem markFirstPass_cons_unscheduled (lister : String → String → Option Pod)
    (mounted : List String) (pvcName : String) (pod podObj : Pod) (rest : List Pod)
    (podObjs : List Pod) (marked : List String)
    (h : lister pod.namespaceName pod.name = some podObj) (h2 : podObj.nodeName = "") :
    markFirstPass lister mounted pvcName (pod :: rest) podObjs marked
      = markFirstPass lister mounted pvcName rest podObjs marked := by
  conv_lhs => rw [markFirstPass]
  rw [h]
  exact if_pos h2

theorem markFirstPass_cons_unmounted (lister : String → String → Option Pod)
    (mounted : List String) (pvcName : String) (pod podObj : Pod) (rest : List Pod)
    (podObjs : List Pod) (marked : List String)
    (h : lister pod.namespaceName pod.name = some podObj) (h2 : ¬ podObj.nodeName = "")
    (h3 : mounted.contains podObj.nodeName = false) :
    markFirstPass lister mounted pvcName (pod :: rest) podObjs marked
      = markFirstPass lister mounted pvcName rest podObjs marked := by
  conv_lhs => rw [markFirstPass]
  rw [h]
  show (if podObj.nodeName = "" then markFirstPass lister mounted pvcName rest podObjs marked
    else if ¬ mounted.contains podObj.nodeName then
      markFirstPass lister mounted pvcName rest podObjs marked
    else if marked.contains podObj.nodeName then
      markFirstPass lister mounted pvcName rest podObjs marked
    else if podHasMarkedForPVCResizing podObj pvcName then
      markFirstPass lister mounted pvcName rest podObjs (podObj.nodeName :: marked)
    else markFirstPass lister mounted pvcName rest (podObjs ++ [podObj]) marked)
    = markFirstPass lister mounted pvcName rest podObjs marked
  rw [if_neg h2]
  exact if_pos (by simpa using h3)

theorem markFirstPass_cons_already (lister : String → String → Option Pod)
    (mounted : List String) (pvcName : String) (pod podObj : Pod) (rest : List Pod)
    (podObjs : List Pod) (marked : List String)
    (h : lister pod.namespaceName pod.name = some podObj) (h2 : ¬ podObj.nodeName = "")
    (h3 : mounted.contains podObj.nodeName = true)
    (h4 : marked.contains podObj.nodeName = true) :
    markFirstPass lister mounted pvcName (pod :: rest) podObjs marked
      = markFirstPass lister mounted pvcName rest podObjs marked := by
  conv_lhs => rw [markFirstPass]
  rw [h]
  show (if podObj.nodeName = "" then markFirstPass lister mounted pvcName rest podObjs marked
    else if ¬ mounted.contains podObj.nodeName then
      markFirstPass lister mounted pvcName rest podObjs marked
    else if marked.contains podObj.nodeName then
      markFirstPass lister mounted pvcName rest podObjs marked
    else if podHasMarkedForPVCResizing podObj pvcName then
      markFirstPass lister mounted pvcName rest podObjs (podObj.nodeName :: marked)
    else markFirstPass lister mounted pvcName rest (podObjs ++ [podObj]) marked)
    = markFirstPass lister mounted pvcName rest podObjs marked
  rw [if_neg h2, if_neg (by simpa using h3), if_pos h4]

theorem markFirstPass_cons_hasMarked (lister : String → String → Option Pod)
    (mounted : List String) (pvcName : String) (pod podObj : Pod) (rest : List Pod)
    (podObjs : List Pod) (marked : List String)
    (h : lister pod.namespaceName pod.name = some podObj) (h2 : ¬ podObj.nodeName = "")
    (h3 : mounted.contains podObj.nodeName = true)
    (h4 : marked.contains podObj.nodeName = false)
    (h5 : podHasMarkedForPVCResizing podObj pvcName = true) :
    markFirstPass lister mounted pvcName (pod :: rest) podObjs marked
      = markFirstPass lister mounted pvcName rest podObjs (podObj.nodeName :: marked) := by
  conv_lhs => rw [markFirstPass]
  rw [h]
  show (if podObj.nodeName = "" then markFirstPass lister mounted pvcName rest podObjs marked
    else if ¬ mounted.contains podObj.nodeName then
      markFirstPass lister mounted pvcName rest podObjs marked
    else if marked.contains podObj.nodeName then
      markFirstPass lister mounted pvcName rest podObjs marked
    else if podHasMarkedForPVCResizing podObj pvcName then
      markFirstPass lister mounted pvcName rest podObjs (podObj.nodeName :: marked)
    else markFirstPass lister mounted pvcName rest (podObjs ++ [podObj]) marked)
    = markFirstPass lister mounted pvcName rest podObjs (podObj.nodeName :: marked)
  rw [if_neg h2, if_neg (by simpa using h3), if_neg (by simpa using h4), if_pos h5]

theorem markFirstPass_cons_collect (lister : String → String → Option Pod)
    (mounted : List String) (pvcName : String) (pod podObj : Pod) (rest : List Pod)
    (podObjs : List Pod) (marked : List String)
    (h : lister pod.namespaceName pod.name = some podObj) (h2 : ¬ podObj.nodeName = "")
    (h3 : mounted.contains podObj.nodeName = true)
    (h4 : marked.contains podObj.nodeName = false)
    (h5 : podHasMarkedForPVCResizing podObj pvcName = false) :
    markFirstPass lister mounted pvcName (pod :: rest) podObjs marked
      = markFirstPass lister mounted pvcName rest (podObjs ++ [podObj]) marked := by
  conv_lhs => rw [markFirstPass]
  rw [h]
  show (if podObj.nodeName = "" then markFirstPass lister mounted pvcName rest podObjs marked
    else if ¬ mounted.contains podObj.nodeName then
      markFirstPass lister mounted pvcName rest podObjs marked
    else if marked.contains podObj.nodeName then
      markFirstPass lister mounted pvcName rest podObjs marked
    else if podHasMarkedForPVCResizing podObj pvcName then
      markFirstPass lister mounted pvcName rest podObjs (podObj.nodeName :: marked)
    else markFirstPass lister mounted pvcName rest (podObjs ++ [podObj]) marked)
    = markFirstPass lister mounted pvcName rest (podObjs ++ [podObj]) marked
  rw [if_neg h2, if_neg (by simpa using h3), if_neg (by simpa using h4), if_neg (by simp [h5])]

theorem markSecondPass_cons_marked (updateOk : Pod → Bool) (pvcName : String) (podObj : Pod)
    (rest : List Pod) (marked : List String) (h : marked.contains podObj.nodeName = true) :
    markSecondPass updateOk pvcName (podObj :: rest) marked
      = markSecondPass updateOk pvcName rest marked := by
  conv_lhs => rw [markSecondPass]
  exact if_pos h

theorem markSecondPass_cons_write (updateOk : Pod → Bool) (pvcName : String) (podObj : Pod)
    (rest : List Pod) (marked : List String) (h : marked.contains podObj.nodeName = false)
    (h2 : updateOk (updatePodAnnotationForPVCResizing podObj pvcName) = true) :
    markSecondPass updateOk pvcName (podObj :: rest) marked
      = (updatePodAnnotationForPVCResizing podObj pvcName ::
           (markSecondPass updateOk pvcName rest (podObj.nodeName :: marked)).1,
         (markSecondPass updateOk pvcName rest (podObj.nodeName :: marked)).2) := by
  conv_lhs => rw [markSecondPass]
  rw [if_neg (by simpa using h), if_pos h2]

theorem markSecondPass_cons_fail (updateOk : Pod → Bool) (pvcName : String) (podObj : Pod)
    (rest : List Pod) (marked : List String) (h : marked.contains podObj.nodeName = false)
    (h2 : updateOk (updatePodAnnotationForPVCResizing podObj pvcName) = false) :
    markSecondPass updateOk pvcName (podObj :: rest) marked = ([], true) := by
  conv_lhs => rw [markSecondPass]
  rw [if_neg (by simpa using h), if_neg (by simp [h2])]

theorem bool_eq_false_of_ne_true {b : Bool} (h : ¬ b = true) : b = false := by
  cases b
  · rfl
  · exact absurd rfl h

theorem updatePod_nodeName (pod : Pod) (pvcName : String) :
    (updatePodAnnotationForPVCResizing pod pvcName).nodeName = pod.nodeName := rfl

theorem updatePod_hasMarked (pod : Pod) (pvcName : String) :
    podHasMarkedForPVCResizing (updatePodAnnotationForPVCResizing pod pvcName) pvcName
      = true := by
  unfold podHasMarkedForPVCResizing updatePodAnnotationForPVCResizing
  simp [lookupAssoc_insertAssoc]

theorem markSecondPass_writes_src (updateOk : Pod → Bool) (pvcName : String)
    (objs : List Pod) :
    ∀ (marked : List String) (w : Pod),
      w ∈ (markSecondPass updateOk pvcName objs marked).1 →
      ∃ o ∈ objs, w = updatePodAnnotationForPVCResizing o pvcName := by
  induction objs with
  | nil => intro marked w hw; simp [markSecondPass] at hw
  | cons podObj rest ih =>
    intro marked w hw
    by_cases hc : marked.contains podObj.nodeName = true
    · rw [markSecondPass_cons_marked updateOk pvcName podObj rest marked hc] at hw
      obtain ⟨o, ho, hweq⟩ := ih marked w hw
      exact ⟨o, List.mem_cons_of_mem _ ho, hweq⟩
    · have hc2 := bool_eq_false_of_ne_true hc
      by_cases hu : updateOk (updatePodAnnotationForPVCResizing podObj pvcName) = true
      · rw [markSecondPass_cons_write updateOk pvcName podObj rest marked hc2 hu] at hw
        rcases List.mem_cons.mp hw with hweq | hmem
        · exact ⟨podObj, List.mem_cons_self _ _, hweq⟩
        · obtain ⟨o, ho, hweq⟩ := ih _ w hmem
          exact ⟨o, List.mem_cons_of_mem _ ho, hweq⟩
      · have hu2 := bool_eq_false_of_ne_true hu
        rw [markSecondPass_cons_fail updateOk pvcName podObj rest marked hc2 hu2] at hw
        simp at hw

theorem markSecondPass_marked_not_written (updateOk : Pod → Bool) (pvcName : String)
    (objs : List Pod) :
    ∀ (marked : List String) (n : String), n ∈ marked →
      ∀ w ∈ (markSecondPass updateOk pvcName objs marked).1, ¬ w.nodeName = n := by
  induction objs with
  | nil => intro marked n hn w hw; simp [markSecondPass] at hw
  | cons podObj rest ih =>
    intro marked n hn w hw
    by_cases hc : marked.contains podObj.nodeName = true
    · rw [markSecondPass_cons_marked updateOk pvcName podObj rest marked hc] at hw
      exact ih marked n hn w hw
    · have hc2 := bool_eq_false_of_ne_true hc
      by_cases hu : updateOk (updatePodAnnotationForPVCResizing podObj pvcName) = true
      · rw [markSecondPass_cons_write updateOk pvcName podObj rest marked hc2 hu] at hw
        rcases List.mem_cons.mp hw with hweq | hmem
        · intro hwn
          apply hc
          subst hweq
          rw [updatePod_nodeName] at hwn
          rw [hwn]
          exact List.elem_eq_true_of_mem hn
        · exact ih _ n (List.mem_cons_of_mem _ hn) w hmem
      · have hu2 := bool_eq_false_of_ne_true hu
        rw [markSecondPass_cons_fail updateOk pvcName podObj rest marked hc2 hu2] at hw
        simp at hw

theorem markSecondPass_at_most_one (updateOk : Pod → Bool) (pvcName : String)
    (objs : List Pod) :
    ∀ (marked : List String) (n : String),
      ((markSecondPass updateOk pvcName objs marked).1.filter
        (fun w => w.nodeName == n)).length ≤ 1 := by
  induction objs with
  | nil => intro marked n; simp [markSecondPass]
  | cons podObj rest ih =>
    intro marked n
    by_cases hc : marked.contains podObj.nodeName = true
    · rw [markSecondPass_cons_marked updateOk pvcName podObj rest marked hc]
      exact ih marked n
    · have hc2 := bool_eq_false_of_ne_true hc
      by_cases hu : updateOk (updatePodAnnotationForPVCResizing podObj pvcName) = true
      · rw [markSecondPass_cons_write updateOk pvcName podObj rest marked hc2 hu]
        by_cases hn : (updatePodAnnotationForPVCResizing podObj pvcName).nodeName = n
        · have hmem : n ∈ podObj.nodeName :: marked := by
            rw [updatePod_nodeName] at hn
            rw [← hn]
            exact List.mem_cons_self _ _
          have hni := markSecondPass_marked_not_written updateOk pvcName rest
            (podObj.nodeName :: marked) n hmem
          have hfil : ((markSecondPass updateOk pvcName rest (podObj.nodeName :: marked)).1.filter
              (fun w => w.nodeName == n)) = [] := by
            rw [List.filter_eq_nil_iff]
            intro a ha
            simp only [beq_iff_eq]
            exact hni a ha
          rw [List.filter_cons_of_pos (by simp [hn]), hfil]
          simp
        · rw [List.filter_cons_of_neg (by simp [hn])]
          exact ih _ n
      · have hu2 := bool_eq_false_of_ne_true hu
        rw [markSecondPass_cons_fail updateOk pvcName podObj rest marked hc2 hu2]
        simp

theorem markSecondPass_writes_node_of_unmarked (updateOk : Pod → Bool) (pvcName : String)
    (objs : List Pod) :
    ∀ (marked : List String) (n : String), ¬ n ∈ marked →
      (∃ o ∈ objs, o.nodeName = n) →
      (markSecondPass updateOk pvcName objs marked).2 = false →
      ∃ w ∈ (markSecondPass updateOk pvcName objs marked).1, w.nodeName = n := by
  induction objs with
  | nil =>
    intro marked n hnm hex herr
    obtain ⟨o, ho, _⟩ := hex
    simp at ho
  | cons podObj rest ih =>
    intro marked n hnm hex herr
    by_cases hc : marked.contains podObj.nodeName = true
    · rw [markSecondPass_cons_marked updateOk pvcName podObj rest marked hc] at herr ⊢
      refine ih marked n hnm ?_ herr
      obtain ⟨o, ho, hon⟩ := hex
      rcases List.mem_cons.mp ho with rfl | hmem
      · exact absurd (hon ▸ List.mem_of_elem_eq_true hc) hnm
      · exact ⟨o, hmem, hon⟩
    · have hc2 := bool_eq_false_of_ne_true hc
      by_cases hu : updateOk (updatePodAnnotationForPVCResizing podObj pvcName) = true
      · rw [markSecondPass_cons_write updateOk pvcName podObj rest marked hc2 hu] at herr ⊢
        by_cases hpn : podObj.nodeName = n
        · exact ⟨updatePodAnnotationForPVCResizing podObj pvcName, List.mem_cons_self _ _,
            by rw [updatePod_nodeName]; exact hpn⟩
        · have hex2 : ∃ o ∈ rest, o.nodeName = n := by
            obtain ⟨o, ho, hon⟩ := hex
            rcases List.mem_cons.mp ho with rfl | hmem
            · exact absurd hon hpn
            · exact ⟨o, hmem, hon⟩
          have hnm2 : ¬ n ∈ podObj.nodeName :: marked := by
            intro hmem
            rcases List.mem_cons.mp hmem with hEq | hmem2
            · exact hpn hEq.symm
            · exact hnm hmem2
          obtain ⟨w, hw, hwn⟩ := ih (podObj.nodeName :: marked) n hnm2 hex2 herr
          exact ⟨w, List.mem_cons_of_mem _ hw, hwn⟩
      · have hu2 := bool_eq_false_of_ne_true hu
        rw [markSecondPass_cons_fail updateOk pvcName podObj rest marked hc2 hu2] at herr
        simp at herr

theorem markFirstPass_mono (lister : String → String → Option Pod) (mounted : List String)
    (pvcName : String) (pods : List Pod) :
    ∀ (podObjs objs : List Pod) (marked₀ marked : List String),
      markFirstPass lister mounted pvcName pods podObjs marked₀ = some (objs, marked) →
      (∀ o ∈ podObjs, o ∈ objs) ∧ (∀ n ∈ marked₀, n ∈ marked) := by
  induction pods with
  | nil =>
    intro podObjs objs marked₀ marked hres
    simp [markFirstPass] at hres
    exact ⟨fun o ho => hres.1 ▸ ho, fun n hn => hres.2 ▸ hn⟩
  | cons pod rest ih =>
    intro podObjs objs marked₀ marked hres
    cases hl : lister pod.namespaceName pod.name with
    | none =>
      rw [markFirstPass_cons_err lister mounted pvcName pod rest podObjs marked₀ hl] at hres
      exact absurd hres (by simp)
    | some q =>
      by_cases h2 : q.nodeName = ""
      · rw [markFirstPass_cons_unscheduled lister mounted pvcName pod q rest podObjs
          marked₀ hl h2] at hres
        exact ih podObjs objs marked₀ marked hres
      · by_cases h3 : mounted.contains q.nodeName = true
        · by_cases h4 : marked₀.contains q.nodeName = true
          · rw [markFirstPass_cons_already lister mounted pvcName pod q rest podObjs
              marked₀ hl h2 h3 h4] at hres
            exact ih podObjs objs marked₀ marked hres
          · have h4f := bool_eq_false_of_ne_true h4
            by_cases h5 : podHasMarkedForPVCResizing q pvcName = true
            · rw [markFirstPass_cons_hasMarked lister mounted pvcName pod q rest podObjs
                marked₀ hl h2 h3 h4f h5] at hres
              obtain ⟨ho, hm⟩ := ih podObjs objs (q.nodeName :: marked₀) marked hres
              exact ⟨ho, fun n hn => hm n (List.mem_cons_of_mem _ hn)⟩
            · have h5f := bool_eq_false_of_ne_true h5
              rw [markFirstPass_cons_collect lister mounted pvcName pod q rest podObjs
                marked₀ hl h2 h3 h4f h5f] at hres
              obtain ⟨ho, hm⟩ := ih (podObjs ++ [q]) objs marked₀ marked hres
              exact ⟨fun o hoo => ho o (List.mem_append_left _ hoo), hm⟩
        · have h3f := bool_eq_false_of_ne_true h3
          rw [markFirstPass_cons_unmounted lister mounted pvcName pod q rest podObjs
            marked₀ hl h2 h3f] at hres
          exact ih podObjs objs marked₀ marked hres

theorem contains_cons_false {a b : String} {l : List String} (h1 : ¬ b = a)
    (h2 : l.contains b = false) : (a :: l).contains b = false := by
  simp only [List.contains_cons, Bool.or_eq_false_iff]
  exact ⟨by simp [h1], h2⟩

theorem markFirstPass_objs_src (lister : String → String → Option Pod) (mounted : List String)
    (pvcName : String) (pods : List Pod) :
    ∀ (podObjs objs : List Pod) (marked₀ marked : List String),
      markFirstPass lister mounted pvcName pods podObjs marked₀ = some (objs, marked) →
      ∀ o ∈ objs, o ∈ podObjs ∨
        ((∃ p ∈ pods, lister p.namespaceName p.name = some o) ∧ ¬ o.nodeName = "" ∧
          mounted.contains o.nodeName = true ∧
          podHasMarkedForPVCResizing o pvcName = false) := by
  induction pods with
  | nil =>
    intro podObjs objs marked₀ marked hres o ho
    simp [markFirstPass] at hres
    exact Or.inl (hres.1 ▸ ho)
  | cons pod rest ih =>
    intro podObjs objs marked₀ marked hres o ho
    cases hl : lister pod.namespaceName pod.name with
    | none =>
      rw [markFirstPass_cons_err lister mounted pvcName pod rest podObjs marked₀ hl] at hres
      exact absurd hres (by simp)
    | some q =>
      have weaken :
          o ∈ podObjs ∨
            ((∃ p ∈ rest, lister p.namespaceName p.name = some o) ∧ ¬ o.nodeName = "" ∧
              mounted.contains o.nodeName = true ∧
              podHasMarkedForPVCResizing o pvcName = false) →
          o ∈ podObjs ∨
            ((∃ p ∈ pod :: rest, lister p.namespaceName p.name = some o) ∧ ¬ o.nodeName = "" ∧
              mounted.contains o.nodeName = true ∧
              podHasMarkedForPVCResizing o pvcName = false) := by
        rintro (hin | ⟨⟨p, hp, hpl⟩, hrest⟩)
        · exact Or.inl hin
        · exact Or.inr ⟨⟨p, List.mem_cons_of_mem _ hp, hpl⟩, hrest⟩
      by_cases h2 : q.nodeName = ""
      · rw [markFirstPass_cons_unscheduled lister mounted pvcName pod q rest podObjs
          marked₀ hl h2] at hres
        exact weaken (ih podObjs objs marked₀ marked hres o ho)
      · by_cases h3 : mounted.contains q.nodeName = true
        · by_cases h4 : marked₀.contains q.nodeName = true
          · rw [markFirstPass_cons_already lister mounted pvcName pod q rest podObjs
              marked₀ hl h2 h3 h4] at hres
            exact weaken (ih podObjs objs marked₀ marked hres o ho)
          · have h4f := bool_eq_false_of_ne_true h4
            by_cases h5 : podHasMarkedForPVCResizing q pvcName = true
            · rw [markFirstPass_cons_hasMarked lister mounted pvcName pod q rest podObjs
                marked₀ hl h2 h3 h4f h5] at hres
              exact weaken (ih podObjs objs (q.nodeName :: marked₀) marked hres o ho)
            · have h5f := bool_eq_false_of_ne_true h5
              rw [markFirstPass_cons_collect lister mounted pvcName pod q rest podObjs
                marked₀ hl h2 h3 h4f h5f] at hres
              rcases ih (podObjs ++ [q]) objs marked₀ marked hres o ho with hin | hq
              · rcases List.mem_append.mp hin with hin2 | hin2
                · exact Or.inl hin2
                · have hoq : o = q := by simpa using hin2
                  subst hoq
                  exact Or.inr ⟨⟨pod, List.mem_cons_self _ _, hl⟩, h2, h3, h5f⟩
              · exact weaken (Or.inr hq)
        · have h3f := bool_eq_false_of_ne_true h3
          rw [markFirstPass_cons_unmounted lister mounted pvcName pod q rest podObjs
            marked₀ hl h2 h3f] at hres
          exact weaken (ih podObjs objs marked₀ marked hres o ho)

theorem markFirstPass_marked_src (lister : String → String → Option Pod) (mounted : List String)
    (pvcName : String) (pods : List Pod) :
    ∀ (podObjs objs : List Pod) (marked₀ marked : List String),
      markFirstPass lister mounted pvcName pods podObjs marked₀ = some (objs, marked) →
      ∀ n ∈ marked, n ∈ marked₀ ∨
        ∃ p ∈ pods, ∃ q, lister p.namespaceName p.name = some q ∧ q.nodeName = n ∧
          podHasMarkedForPVCResizing q pvcName = true := by
  induction pods with
  | nil =>
    intro podObjs objs marked₀ marked hres n hn
    simp [markFirstPass] at hres
    exact Or.inl (hres.2 ▸ hn)
  | cons pod rest ih =>
    intro podObjs objs marked₀ marked hres n hn
    cases hl : lister pod.namespaceName pod.name with
    | none =>
      rw [markFirstPass_cons_err lister mounted pvcName pod rest podObjs marked₀ hl] at hres
      exact absurd hres (by simp)
    | some q =>
      have weaken :
          n ∈ marked₀ ∨
            (∃ p ∈ rest, ∃ q2, lister p.namespaceName p.name = some q2 ∧ q2.nodeName = n ∧
              podHasMarkedForPVCResizing q2 pvcName = true) →
          n ∈ marked₀ ∨
            (∃ p ∈ pod :: rest, ∃ q2, lister p.namespaceName p.name = some q2 ∧
              q2.nodeName = n ∧ podHasMarkedForPVCResizing q2 pvcName = true) := by
        rintro (hin | ⟨p, hp, q2, hpl, hrest⟩)
        · exact Or.inl hin
        · exact Or.inr ⟨p, List.mem_cons_of_mem _ hp, q2, hpl, hrest⟩
      by_cases h2 : q.nodeName = ""
      · rw [markFirstPass_cons_unscheduled lister mounted pvcName pod q rest podObjs
          marked₀ hl h2] at hres
        exact weaken (ih podObjs objs marked₀ marked hres n hn)
      · by_cases h3 : mounted.contains q.nodeName = true
        · by_cases h4 : marked₀.contains q.nodeName = true
          · rw [markFirstPass_cons_already lister mounted pvcName pod q rest podObjs
              marked₀ hl h2 h3 h4] at hres
            exact weaken (ih podObjs objs marked₀ marked hres n hn)
          · have h4f := bool_eq_false_of_ne_true h4
            by_cases h5 : podHasMarkedForPVCResizing q pvcName = true
            · rw [markFirstPass_cons_hasMarked lister mounted pvcName pod q rest podObjs
                marked₀ hl h2 h3 h4f h5] at hres
              rcases ih podObjs objs (q.nodeName :: marked₀) marked hres n hn with hin | hq
              · rcases List.mem_cons.mp hin with hEq | hin2
                · exact Or.inr ⟨pod, List.mem_cons_self _ _, q, hl, hEq.symm, h5⟩
                · exact Or.inl hin2
              · exact weaken (Or.inr hq)
            · have h5f := bool_eq_false_of_ne_true h5
              rw [markFirstPass_cons_collect lister mounted pvcName pod q rest podObjs
                marked₀ hl h2 h3 h4f h5f] at hres
              exact weaken (ih (podObjs ++ [q]) objs marked₀ marked hres n hn)
        · have h3f := bool_eq_false_of_ne_true h3
          rw [markFirstPass_cons_unmounted lister mounted pvcName pod q rest podObjs
            marked₀ hl h2 h3f] at hres
          exact weaken (ih podObjs objs marked₀ marked hres n hn)

theorem markFirstPass_precarrier_marked (lister : String → String → Option Pod)
    (mounted : List String) (pvcName : String) (pods : List Pod) :
    ∀ (podObjs objs : List Pod) (marked₀ marked : List String),
      markFirstPass lister mounted pvcName pods podObjs marked₀ = some (objs, marked) →
      ∀ p ∈ pods, ∀ q, lister p.namespaceName p.name = some q →
        podHasMarkedForPVCResizing q pvcName = true → ¬ q.nodeName = "" →
        mounted.contains q.nodeName = true → q.nodeName ∈ marked := by
  induction pods with
  | nil =>
    intro podObjs objs marked₀ marked hres p hp
    simp at hp
  | cons pod rest ih =>
    intro podObjs objs marked₀ marked hres p hp q hq hqm hqn hqmt
    cases hl : lister pod.namespaceName pod.name with
    | none =>
      rw [markFirstPass_cons_err lister mounted pvcName pod rest podObjs marked₀ hl] at hres
      exact absurd hres (by simp)
    | some q0 =>
      by_cases h2 : q0.nodeName = ""
      · rw [markFirstPass_cons_unscheduled lister mounted pvcName pod q0 rest podObjs
          marked₀ hl h2] at hres
        rcases List.mem_cons.mp hp with rfl | hmem
        · rw [hl] at hq
          injection hq with hq
          subst hq
          exact absurd h2 hqn
        · exact ih podObjs objs marked₀ marked hres p hmem q hq hqm hqn hqmt
      · by_cases h3 : mounted.contains q0.nodeName = true
        · by_cases h4 : marked₀.contains q0.nodeName = true
          · rw [markFirstPass_cons_already lister mounted pvcName pod q0 rest podObjs
              marked₀ hl h2 h3 h4] at hres
            rcases List.mem_cons.mp hp with rfl | hmem
            · rw [hl] at hq
              injection hq with hq
              subst hq
              exact (markFirstPass_mono lister mounted pvcName rest podObjs objs marked₀
                marked hres).2 q0.nodeName (List.mem_of_elem_eq_true h4)
            · exact ih podObjs objs marked₀ marked hres p hmem q hq hqm hqn hqmt
          · have h4f := bool_eq_false_of_ne_true h4
            by_cases h5 : podHasMarkedForPVCResizing q0 pvcName = true
            · rw [markFirstPass_cons_hasMarked lister mounted pvcName pod q0 rest podObjs
                marked₀ hl h2 h3 h4f h5] at hres
              rcases List.mem_cons.mp hp with rfl | hmem
              · rw [hl] at hq
                injection hq with hq
                subst hq
                exact (markFirstPass_mono lister mounted pvcName rest podObjs objs
                  (q0.nodeName :: marked₀) marked hres).2 q0.nodeName (List.mem_cons_self _ _)
              · exact ih podObjs objs (q0.nodeName :: marked₀) marked hres p hmem q hq hqm hqn hqmt
            · have h5f := bool_eq_false_of_ne_true h5
              rw [markFirstPass_cons_collect lister mounted pvcName pod q0 rest podObjs
                marked₀ hl h2 h3 h4f h5f] at hres
              rcases List.mem_cons.mp hp with rfl | hmem
              · rw [hl] at hq
                injection hq with hq
                subst hq
                rw [hqm] at h5f
                exact absurd h5f (by simp)
              · exact ih (podObjs ++ [q0]) objs marked₀ marked hres p hmem q hq hqm hqn hqmt
        · have h3f := bool_eq_false_of_ne_true h3
          rw [markFirstPass_cons_unmounted lister mounted pvcName pod q0 rest podObjs
            marked₀ hl h2 h3f] at hres
          rcases List.mem_cons.mp hp with rfl | hmem
          · rw [hl] at hq
            injection hq with hq
            subst hq
            rw [hqmt] at h3f
            exact absurd h3f (by simp)
          · exact ih podObjs objs marked₀ marked hres p hmem q hq hqm hqn hqmt

theorem markFirstPass_eligible_collected (lister : String → String → Option Pod)
    (mounted : List String) (pvcName : String) (pods : List Pod) :
    ∀ (podObjs objs : List Pod) (marked₀ marked : List String) (n : String),
      markFirstPass lister mounted pvcName pods podObjs marked₀ = some (objs, marked) →
      ¬ n = "" → mounted.contains n = true →
      ((∃ o ∈ podObjs, o.nodeName = n) ∨
        (∃ p ∈ pods, ∃ q, lister p.namespaceName p.name = some q ∧ q.nodeName = n)) →
      (∀ p ∈ pods, ∀ q, lister p.namespaceName p.name = some q → q.nodeName = n →
        podHasMarkedForPVCResizing q pvcName = false) →
      marked₀.contains n = false →
      ∃ o ∈ objs, o.nodeName = n := by
  induction pods with
  | nil =>
    intro podObjs objs marked₀ marked n hres hn hmt hex hpre hm0
    simp [markFirstPass] at hres
    rcases hex with ⟨o, ho, hon⟩ | ⟨p, hp, _⟩
    · exact ⟨o, hres.1 ▸ ho, hon⟩
    · simp at hp
  | cons pod rest ih =>
    intro podObjs objs marked₀ marked n hres hn hmt hex hpre hm0
    have hpre2 : ∀ p ∈ rest, ∀ q, lister p.namespaceName p.name = some q → q.nodeName = n →
        podHasMarkedForPVCResizing q pvcName = false :=
      fun p hp => hpre p (List.mem_cons_of_mem _ hp)
    cases hl : lister pod.namespaceName pod.name with
    | none =>
      rw [markFirstPass_cons_err lister mounted pvcName pod rest podObjs marked₀ hl] at hres
      exact absurd hres (by simp)
    | some q0 =>
      have hexSplit :
          (∃ o ∈ podObjs, o.nodeName = n) ∨ q0.nodeName = n ∨
            (∃ p ∈ rest, ∃ q, lister p.namespaceName p.name = some q ∧ q.nodeName = n) := by
        rcases hex with hleft | ⟨p, hp, q, hq, hqn⟩
        · exact Or.inl hleft
        · rcases List.mem_cons.mp hp with rfl | hmem
          · rw [hl] at hq
            injection hq with hq
            subst hq
            exact Or.inr (Or.inl hqn)
          · exact Or.inr (Or.inr ⟨p, hmem, q, hq, hqn⟩)
      by_cases h2 : q0.nodeName = ""
      · rw [markFirstPass_cons_unscheduled lister mounted pvcName pod q0 rest podObjs
          marked₀ hl h2] at hres
        refine ih podObjs objs marked₀ marked n hres hn hmt ?_ hpre2 hm0
        rcases hexSplit with hleft | hq0 | hrest
        · exact Or.inl hleft
        · exact absurd (hq0 ▸ h2) hn
        · exact Or.inr hrest
      · by_cases h3 : mounted.contains q0.nodeName = true
        · by_cases h4 : marked₀.contains q0.nodeName = true
          · rw [markFirstPass_cons_already lister mounted pvcName pod q0 rest podObjs
              marked₀ hl h2 h3 h4] at hres
            refine ih podObjs objs marked₀ marked n hres hn hmt ?_ hpre2 hm0
            rcases hexSplit with hleft | hq0 | hrest
            · exact Or.inl hleft
            · rw [hq0] at h4
              rw [h4] at hm0
              exact absurd hm0 (by simp)
            · exact Or.inr hrest
          · have h4f := bool_eq_false_of_ne_true h4
            by_cases h5 : podHasMarkedForPVCResizing q0 pvcName = true
            · rw [markFirstPass_cons_hasMarked lister mounted pvcName pod q0 rest podObjs
                marked₀ hl h2 h3 h4f h5] at hres
              have hq0n : ¬ q0.nodeName = n := by
                intro hq0
                rw [hpre pod (List.mem_cons_self _ _) q0 hl hq0] at h5
                exact absurd h5 (by simp)
              refine ih podObjs objs (q0.nodeName :: marked₀) marked n hres hn hmt ?_ hpre2
                (contains_cons_false (fun h => hq0n h.symm) hm0)
              rcases hexSplit with hleft | hq0 | hrest
              · exact Or.inl hleft
              · exact absurd hq0 hq0n
              · exact Or.inr hrest
            · have h5f := bool_eq_false_of_ne_true h5
              rw [markFirstPass_cons_collect lister mounted pvcName pod q0 rest podObjs
                marked₀ hl h2 h3 h4f h5f] at hres
              refine ih (podObjs ++ [q0]) objs marked₀ marked n hres hn hmt ?_ hpre2 hm0
              rcases hexSplit with hleft | hq0 | hrest
              · obtain ⟨o, ho, hon⟩ := hleft
                exact Or.inl ⟨o, List.mem_append_left _ ho, hon⟩
              · exact Or.inl ⟨q0, List.mem_append_right _ (List.mem_cons_self _ _), hq0⟩
              · exact Or.inr hrest
        · have h3f := bool_eq_false_of_ne_true h3
          rw [markFirstPass_cons_unmounted lister mounted pvcName pod q0 rest podObjs
            marked₀ hl h2 h3f] at hres
          refine ih podObjs objs marked₀ marked n hres hn hmt ?_ hpre2 hm0
          rcases hexSplit with hleft | hq0 | hrest
          · exact Or.inl hleft
          · rw [hq0] at h3f
            rw [hmt] at h3f
            exact absurd h3f (by simp)
          · exact Or.inr hrest

/-- C2 (amended): per-node deduplication of the fan-out. In a single
MarkForFileSystemResize call: (1) for every node, at most one pod has the
handshake annotation newly written; (2) if some pod using the volume is
listed on a node and already carries the annotation with value "yes" for
this volume, no pod on that node is updated; (3) on a successful call, a
node with at least one eligible pod (scheduled there, volume mounted
there) on which no listed pod already carried the signal gets exactly one
pod newly written; and (4) every written pod ends the call carrying the
signal. The original claim — exactly one pod per eligible node ends the
call carrying the signal even when several already carried it — fails on
the code; see the counterexample. -/
theorem mark_per_node_dedup (lister : String → String → Option Pod) (mounted : List String)
    (updateOk : Pod → Bool) (pvcName : String) (pods : List Pod) (n : String) :
    (((markForFileSystemResize lister mounted updateOk pvcName pods).1.filter
        (fun w => w.nodeName == n)).length ≤ 1) ∧
    ((∃ p ∈ pods, ∃ q, lister p.namespaceName p.name = some q ∧ q.nodeName = n ∧
        podHasMarkedForPVCResizing q pvcName = true) →
      (markForFileSystemResize lister mounted updateOk pvcName pods).1.filter
        (fun w => w.nodeName == n) = []) ∧
    ((markForFileSystemResize lister mounted updateOk pvcName pods).2 = false →
      ¬ n = "" → mounted.contains n = true →
      (∃ p ∈ pods, ∃ q, lister p.namespaceName p.name = some q ∧ q.nodeName = n) →
      (∀ p ∈ pods, ∀ q, lister p.namespaceName p.name = some q → q.nodeName = n →
        podHasMarkedForPVCResizing q pvcName = false) →
      ((markForFileSystemResize lister mounted updateOk pvcName pods).1.filter
        (fun w => w.nodeName == n)).length = 1) ∧
    (∀ w ∈ (markForFileSystemResize lister mounted updateOk pvcName pods).1,
      podHasMarkedForPVCResizing w pvcName = true) := by
  by_cases hemp : pods.isEmpty = true
  · have hres : markForFileSystemResize lister mounted updateOk pvcName pods = ([], false) := by
      unfold markForFileSystemResize
      rw [if_pos hemp]
    rw [hres]
    refine ⟨by simp, fun _ => by simp, fun _ _ _ hex _ => ?_, by simp⟩
    obtain ⟨p, hp, _⟩ := hex
    cases pods with
    | nil => simp at hp
    | cons a l => simp at hemp
  · have hempf : pods.isEmpty = false := bool_eq_false_of_ne_true hemp
    cases hfp : markFirstPass lister mounted pvcName pods [] [] with
    | none =>
      have hres : markForFileSystemResize lister mounted updateOk pvcName pods = ([], true) := by
        unfold markForFileSystemResize
        rw [hempf]
        simp only [Bool.false_eq_true, if_false]
        rw [hfp]
      rw [hres]
      exact ⟨by simp, fun _ => by simp, fun h => by simp at h, by simp⟩
    | some pr =>
      obtain ⟨objs, marked⟩ := pr
      have hres : markForFileSystemResize lister mounted updateOk pvcName pods
          = markSecondPass updateOk pvcName objs marked := by
        unfold markForFileSystemResize
        rw [hempf]
        simp only [Bool.false_eq_true, if_false]
        rw [hfp]
      rw [hres]
      refine ⟨markSecondPass_at_most_one updateOk pvcName objs marked n, ?_, ?_, ?_⟩
      · intro hpre
        rw [List.filter_eq_nil_iff]
        by_cases hn2 : n = ""
        · intro w hw
          obtain ⟨o, ho, hweq⟩ := markSecondPass_writes_src updateOk pvcName objs marked w hw
          rcases markFirstPass_objs_src lister mounted pvcName pods [] objs [] marked hfp
            o ho with hin | ⟨_, honode, _, _⟩
          · simp at hin
          · subst hweq
            simp only [updatePod_nodeName, beq_iff_eq]
            intro hcontra
            exact honode (hcontra.trans hn2)
        · by_cases hmt : mounted.contains n = true
          · obtain ⟨p, hp, q, hq, hqn, hqm⟩ := hpre
            have hnm : n ∈ marked := by
              have := markFirstPass_precarrier_marked lister mounted pvcName pods [] objs
                [] marked hfp p hp q hq hqm
                (by rw [hqn]; exact hn2) (by rw [hqn]; exact hmt)
              rw [hqn] at this
              exact this
            intro w hw
            simp only [beq_iff_eq]
            exact markSecondPass_marked_not_written updateOk pvcName objs marked n hnm w hw
          · have hmtf := bool_eq_false_of_ne_true hmt
            intro w hw
            obtain ⟨o, ho, hweq⟩ := markSecondPass_writes_src updateOk pvcName objs marked w hw
            rcases markFirstPass_objs_src lister mounted pvcName pods [] objs [] marked hfp
              o ho with hin | ⟨_, _, homt, _⟩
            · simp at hin
            · subst hweq
              simp only [updatePod_nodeName, beq_iff_eq]
              intro hcontra
              rw [hcontra] at homt
              rw [homt] at hmtf
              exact absurd hmtf (by simp)
      · intro herr hn hmt hex hpre
        have hnm : ¬ n ∈ marked := by
          intro hmem
          rcases markFirstPass_marked_src lister mounted pvcName pods [] objs [] marked hfp
            n hmem with hin | ⟨p, hp, q, hq, hqn, hqm⟩
          · simp at hin
          · rw [hpre p hp q hq hqn] at hqm
            exact absurd hqm (by simp)
        have hex2 : ∃ o ∈ objs, o.nodeName = n :=
          markFirstPass_eligible_collected lister mounted pvcName pods [] objs [] marked n
            hfp hn hmt (Or.inr hex) hpre rfl
        obtain ⟨w, hw, hwn⟩ :=
          markSecondPass_writes_node_of_unmarked updateOk pvcName objs marked n hnm hex2 herr
        have hwf : w ∈ (markSecondPass updateOk pvcName objs marked).1.filter
            (fun w => w.nodeName == n) :=
          List.mem_filter.mpr ⟨hw, by simp [hwn]⟩
        have hge := List.length_pos_of_mem hwf
        have hle := markSecondPass_at_most_one updateOk pvcName objs marked n
        omega
      · intro w hw
        obtain ⟨o, _, hweq⟩ := markSecondPass_writes_src updateOk pvcName objs marked w hw
        subst hweq
        exact updatePod_hasMarked o pvcName

/-- How many pods using the volume end a fan-out call carrying the
handshake signal on node n: each listed pod counts through its written
version when an update was issued for it, else through its listed state. -/
def endsCarryingCount (lister : String → String → Option Pod) (pods : List Pod)
    (writes : List Pod) (pvcName n : String) : Nat :=
  pods.countP (fun p =>
    match lister p.namespaceName p.name with
    | some q =>
      match writes.find? (fun w => w.namespaceName == q.namespaceName && w.name == q.name) with
      | some w => q.nodeName == n && podHasMarkedForPVCResizing w pvcName
      | none => q.nodeName == n && podHasMarkedForPVCResizing q pvcName
    | none => false)

/-- Pod a of the C2 counterexample: scheduled to n1, already carrying the
handshake annotation for volume v. -/
def cexPodA : Pod :=
  { name := "a", namespaceName := "d", uid := "ua", nodeName := "n1",
    annotations := [(getVolumeFsResizeAnnKey "v", "yes")], status := ⟨PodPhase.Running⟩ }

/-- Pod b of the C2 counterexample: same node, also carrying the signal. -/
def cexPodB : Pod :=
  { name := "b", namespaceName := "d", uid := "ub", nodeName := "n1",
    annotations := [(getVolumeFsResizeAnnKey "v", "yes")], status := ⟨PodPhase.Running⟩ }

/-- Lister of the C2 counterexample. -/
def cexLister : String → String → Option Pod :=
  fun _ nm => if nm = "a" then some cexPodA else some cexPodB

/-- C2 counterexample: with two pods using the volume, both scheduled to the
mounted node n1 and both already carrying the handshake annotation "yes",
the call succeeds and writes nothing, so both pods end the call carrying
the signal: the end-carrier count on the eligible node n1 is 2, refuting
"exactly one pod on that node ends the call carrying the signal". -/
theorem mark_per_node_dedup_counterexample :
    (markForFileSystemResize cexLister ["n1"] (fun _ => true) "v" [cexPodA, cexPodB]
      = ([], false)) ∧
    (cexLister cexPodA.namespaceName cexPodA.name = some cexPodA) ∧
    cexPodA.nodeName = "n1" ∧ ¬ ("n1" : String) = "" ∧ (["n1"].contains "n1" = true) ∧
    endsCarryingCount cexLister [cexPodA, cexPodB]
      (markForFileSystemResize cexLister ["n1"] (fun _ => true) "v" [cexPodA, cexPodB]).1
      "v" "n1" = 2 ∧
    ¬ (endsCarryingCount cexLister [cexPodA, cexPodB]
      (markForFileSystemResize cexLister ["n1"] (fun _ => true) "v" [cexPodA, cexPodB]).1
      "v" "n1" = 1) := by
  decide

/-- Witness for C2 (amended) at a concrete input: one unmarked eligible pod
on node n1 gets exactly one write. -/
theorem mark_per_node_dedup_witness :
    ((markForFileSystemResize
        (fun _ _ => some { name := "a", namespaceName := "d", uid := "u1", nodeName := "n1",
                           annotations := [], status := ⟨PodPhase.Running⟩ })
        ["n1"] (fun _ => true) "v"
        [{ name := "a", namespaceName := "d", uid := "u1", nodeName := "n1",
           annotations := [], status := ⟨PodPhase.Running⟩ }]).1.filter
      (fun w => w.nodeName == "n1")).length = 1 :=
  (mark_per_node_dedup
    (fun _ _ => some { name := "a", namespaceName := "d", uid := "u1", nodeName := "n1",
                       annotations := [], status := ⟨PodPhase.Running⟩ })
    ["n1"] (fun _ => true) "v"
    [{ name := "a", namespaceName := "d", uid := "u1", nodeName := "n1",
       annotations := [], status := ⟨PodPhase.Running⟩ }] "n1").2.2.1
    (by decide) (by decide) (by decide)
    ⟨{ name := "a", namespaceName := "d", uid := "u1", nodeName := "n1",
       annotations := [], status := ⟨PodPhase.Running⟩ },
     List.mem_cons_self _ _,
     { name := "a", namespaceName := "d", uid := "u1", nodeName := "n1",
       annotations := [], status := ⟨PodPhase.Running⟩ }, rfl, rfl⟩
    (by
      intro p hp q hq hqn
      injection hq with hq
      subst hq
      decide)

/-! ## Lemmas for the populator -/

theorem isAnn_encode (v : String) :
    isVolumeFsResizeAnnKey (getVolumeFsResizeAnnKey v) = true := by
  simp [isVolumeFsResizeAnnKey, getVolumeFsResizeAnnKey, List.isPrefixOf_iff_prefix]

theorem decode_encode (v : String) :
    getVolumeUniqueNameFromFsResizeAnnKey (getVolumeFsResizeAnnKey v) = v := by
  cases v with
  | mk data =>
    simp [getVolumeUniqueNameFromFsResizeAnnKey, getVolumeFsResizeAnnKey, List.drop_left]

theorem encode_decode_of_isAnn {k : String} (h : isVolumeFsResizeAnnKey k = true) :
    getVolumeFsResizeAnnKey (getVolumeUniqueNameFromFsResizeAnnKey k) = k := by
  unfold isVolumeFsResizeAnnKey at h
  rw [List.isPrefixOf_iff_prefix] at h
  obtain ⟨t, ht⟩ := h
  unfold getVolumeFsResizeAnnKey getVolumeUniqueNameFromFsResizeAnnKey
  cases k with
  | mk data =>
    have ht2 : fsResizeAnnStem.data ++ t = data := ht
    simp only
    congr 1
    rw [← ht2, List.drop_left]

theorem lookupFs_addVolumeForPod (m : FsResizeMap) (vn : String) (a : Nat) (p : Pod)
    (uid v : String) :
    lookupFs (addVolumeForPod m vn a p) uid v =
      if p.uid = uid ∧ vn = v then some ⟨a, p, vn⟩ else lookupFs m uid v := by
  unfold lookupFs addVolumeForPod
  rw [lookupAssoc_insertAssoc]
  by_cases h1 : p.uid = uid
  · rw [if_pos h1, Option.getD_some, lookupAssoc_insertAssoc]
    by_cases h2 : vn = v
    · rw [if_pos h2, if_pos ⟨h1, h2⟩]
    · rw [if_neg h2, if_neg (fun hc => h2 hc.2), h1]
  · rw [if_neg h1, if_neg (fun hc => h1 hc.1)]

theorem ppvStep_yes (p : Pod) (acc : FsResizeMap × Nat) (kv : String × String)
    (hcond : (isVolumeFsResizeAnnKey kv.1 && kv.2 == "yes") = true) :
    ppvStep p acc kv =
      (addVolumeForPod acc.1 (getVolumeUniqueNameFromFsResizeAnnKey kv.1) acc.2 p,
       acc.2 + 1) := by
  unfold ppvStep
  rw [if_pos hcond]

theorem ppvStep_no (p : Pod) (acc : FsResizeMap × Nat) (kv : String × String)
    (hcond : ¬ (isVolumeFsResizeAnnKey kv.1 && kv.2 == "yes") = true) :
    ppvStep p acc kv = acc := by
  unfold ppvStep
  rw [if_neg hcond]

theorem ppvFold_counter_mono (p : Pod) (anns : List (String × String)) :
    ∀ (m : FsResizeMap) (c : Nat), c ≤ (anns.foldl (ppvStep p) (m, c)).2 := by
  induction anns with
  | nil => intro m c; exact le_refl c
  | cons kv rest ih =>
    intro m c
    rw [List.foldl_cons]
    unfold ppvStep
    split
    · exact le_trans (Nat.le_succ c) (ih _ _)
    · exact ih m c

theorem ppvFold_lookup_src (p : Pod) (anns : List (String × String)) :
    ∀ (m : FsResizeMap) (c : Nat) (uid v : String) (e : VolumeToResize),
      lookupFs (anns.foldl (ppvStep p) (m, c)).1 uid v = some e →
      lookupFs m uid v = some e ∨
        (p.uid = uid ∧ e.pod = p ∧ e.volumeName = v ∧ c ≤ e.podAddr ∧
          (getVolumeFsResizeAnnKey v, "yes") ∈ anns) := by
  induction anns with
  | nil => intro m c uid v e h; exact Or.inl h
  | cons kv rest ih =>
    intro m c uid v e h
    rw [List.foldl_cons] at h
    unfold ppvStep at h
    split at h
    · rename_i hcond
      rcases ih _ _ uid v e h with hold | ⟨huid, hpod, hvol, hc, hmem⟩
      · rw [lookupFs_addVolumeForPod] at hold
        split at hold
        · rename_i hc2
          injection hold with hold
          subst hold
          refine Or.inr ⟨hc2.1, rfl, hc2.2, le_refl c, ?_⟩
          have hsplit : isVolumeFsResizeAnnKey kv.1 = true ∧ kv.2 = "yes" := by
            simpa using hcond
          have hkeq : kv.1 = getVolumeFsResizeAnnKey v := by
            rw [← hc2.2]
            exact (encode_decode_of_isAnn hsplit.1).symm
          rw [← hkeq, ← hsplit.2]
          exact List.mem_cons_self _ _
        · exact Or.inl hold
      · exact Or.inr ⟨huid, hpod, hvol, le_trans (Nat.le_succ c) hc,
          List.mem_cons_of_mem _ hmem⟩
    · rcases ih _ _ uid v e h with hold | ⟨huid, hpod, hvol, hc, hmem⟩
      · exact Or.inl hold
      · exact Or.inr ⟨huid, hpod, hvol, hc, List.mem_cons_of_mem _ hmem⟩

theorem ppvFold_preserve_entry (p : Pod) (v : String) (c₀ : Nat)
    (anns : List (String × String)) :
    ∀ (m : FsResizeMap) (c : Nat), c₀ ≤ c →
      (∃ e, lookupFs m p.uid v = some e ∧ e.pod = p ∧ e.volumeName = v ∧ c₀ ≤ e.podAddr) →
      ∃ e, lookupFs (anns.foldl (ppvStep p) (m, c)).1 p.uid v = some e ∧
        e.pod = p ∧ e.volumeName = v ∧ c₀ ≤ e.podAddr := by
  induction anns with
  | nil => intro m c hc he; exact he
  | cons kv rest ih =>
    intro m c hc he
    rw [List.foldl_cons]
    unfold ppvStep
    split
    · refine ih _ _ (le_trans hc (Nat.le_succ c)) ?_
      by_cases hv : getVolumeUniqueNameFromFsResizeAnnKey kv.1 = v
      · exact ⟨⟨c, p, getVolumeUniqueNameFromFsResizeAnnKey kv.1⟩,
          by rw [lookupFs_addVolumeForPod, if_pos ⟨rfl, hv⟩], rfl, hv, hc⟩
      · obtain ⟨e, he1, he2⟩ := he
        exact ⟨e, by rw [lookupFs_addVolumeForPod, if_neg (fun hcc => hv hcc.2)]; exact he1, he2⟩
    · exact ih m c hc he

theorem ppvFold_preserve_foreign (p : Pod) (uid v : String) (h : ¬ p.uid = uid)
    (anns : List (String × String)) :
    ∀ (m : FsResizeMap) (c : Nat),
      lookupFs (anns.foldl (ppvStep p) (m, c)).1 uid v = lookupFs m uid v := by
  induction anns with
  | nil => intro m c; rfl
  | cons kv rest ih =>
    intro m c
    by_cases hcond : (isVolumeFsResizeAnnKey kv.1 && kv.2 == "yes") = true
    · rw [List.foldl_cons, ppvStep_yes p (m, c) kv hcond, ih _ _,
        lookupFs_addVolumeForPod, if_neg (fun hc => h hc.1)]
    · rw [List.foldl_cons, ppvStep_no p (m, c) kv hcond]
      exact ih m c

theorem ppvFold_presence (p : Pod) (v : String) (anns : List (String × String)) :
    ∀ (m : FsResizeMap) (c c₀ : Nat), c₀ ≤ c →
      (getVolumeFsResizeAnnKey v, "yes") ∈ anns →
      ∃ e, lookupFs (anns.foldl (ppvStep p) (m, c)).1 p.uid v = some e ∧
        e.pod = p ∧ e.volumeName = v ∧ c₀ ≤ e.podAddr := by
  induction anns with
  | nil => intro m c c₀ hc hmem; simp at hmem
  | cons kv rest ih =>
    intro m c c₀ hc hmem
    rcases List.mem_cons.mp hmem with hEq | hmem2
    · have h1 : kv.1 = getVolumeFsResizeAnnKey v := by rw [← hEq]
      have h2 : kv.2 = "yes" := by rw [← hEq]
      have hcond : (isVolumeFsResizeAnnKey kv.1 && kv.2 == "yes") = true := by
        rw [h1, h2, isAnn_encode]
        rfl
      rw [List.foldl_cons]
      unfold ppvStep
      rw [if_pos hcond]
      refine ppvFold_preserve_entry p v c₀ rest _ _ (le_trans hc (Nat.le_succ c)) ?_
      refine ⟨⟨c, p, getVolumeUniqueNameFromFsResizeAnnKey kv.1⟩, ?_, rfl, ?_, hc⟩
      · rw [lookupFs_addVolumeForPod, if_pos ⟨rfl, by rw [h1, decode_encode]⟩]
      · rw [h1, decode_encode]
    · rw [List.foldl_cons]
      unfold ppvStep
      split
      · exact ih _ _ c₀ (le_trans hc (Nat.le_succ c)) hmem2
      · exact ih m c c₀ hc hmem2

theorem anpStep_term (statusOf : String → Option PodStatus) (acc : FsResizeMap × Nat)
    (pr : Nat × Pod) (h : isPodTerminated statusOf pr.2 = true) :
    anpStep statusOf acc pr = acc := by
  unfold anpStep
  rw [if_pos h]

theorem anpStep_live (statusOf : String → Option PodStatus) (acc : FsResizeMap × Nat)
    (pr : Nat × Pod) (h : isPodTerminated statusOf pr.2 = false) :
    anpStep statusOf acc pr = processPodVolumes acc.1 acc.2 pr.2 := by
  unfold anpStep
  rw [if_neg (by simp [h])]

theorem anpFold_counter_mono (statusOf : String → Option PodStatus)
    (pods : List (Nat × Pod)) :
    ∀ (m : FsResizeMap) (c : Nat), c ≤ (pods.foldl (anpStep statusOf) (m, c)).2 := by
  induction pods with
  | nil => intro m c; exact le_refl c
  | cons pr rest ih =>
    intro m c
    by_cases hterm : isPodTerminated statusOf pr.2 = true
    · rw [List.foldl_cons, anpStep_term statusOf (m, c) pr hterm]
      exact ih m c
    · have htermf := bool_eq_false_of_ne_true hterm
      rw [List.foldl_cons, anpStep_live statusOf (m, c) pr htermf]
      refine le_trans (ppvFold_counter_mono pr.2 pr.2.annotations m c) ?_
      exact ih _ _

theorem anpFold_lookup_src (statusOf : String → Option PodStatus)
    (pods : List (Nat × Pod)) :
    ∀ (m : FsResizeMap) (c : Nat) (uid v : String) (e : VolumeToResize),
      lookupFs (pods.foldl (anpStep statusOf) (m, c)).1 uid v = some e →
      lookupFs m uid v = some e ∨
        ∃ pr ∈ pods, isPodTerminated statusOf pr.2 = false ∧ pr.2.uid = uid ∧
          (getVolumeFsResizeAnnKey v, "yes") ∈ pr.2.annotations ∧
          e.pod = pr.2 ∧ e.volumeName = v ∧ c ≤ e.podAddr := by
  induction pods with
  | nil => intro m c uid v e h; exact Or.inl h
  | cons pr rest ih =>
    intro m c uid v e h
    rw [List.foldl_cons] at h
    by_cases hterm : isPodTerminated statusOf pr.2 = true
    · rw [anpStep_term statusOf (m, c) pr hterm] at h
      rcases ih _ _ uid v e h with hold | ⟨qr, hq, hrest⟩
      · exact Or.inl hold
      · exact Or.inr ⟨qr, List.mem_cons_of_mem _ hq, hrest⟩
    · have htermf := bool_eq_false_of_ne_true hterm
      rw [anpStep_live statusOf (m, c) pr htermf] at h
      rcases ih _ _ uid v e h with hold | ⟨qr, hq, h1, h2, h3, h4, h5, h6⟩
      · rcases ppvFold_lookup_src pr.2 pr.2.annotations m c uid v e hold with
          hold2 | ⟨huid, hpod, hvol, hc, hmem⟩
        · exact Or.inl hold2
        · exact Or.inr ⟨pr, List.mem_cons_self _ _, htermf, huid, hmem, hpod, hvol, hc⟩
      · exact Or.inr ⟨qr, List.mem_cons_of_mem _ hq, h1, h2, h3, h4, h5,
          le_trans (ppvFold_counter_mono pr.2 pr.2.annotations m c) h6⟩

theorem anpFold_preserve_foreign (statusOf : String → Option PodStatus) (uid v : String)
    (pods : List (Nat × Pod)) :
    ∀ (m : FsResizeMap) (c : Nat),
      (∀ pr ∈ pods, ¬ pr.2.uid = uid) →
      lookupFs (pods.foldl (anpStep statusOf) (m, c)).1 uid v = lookupFs m uid v := by
  induction pods with
  | nil => intro m c _; rfl
  | cons pr rest ih =>
    intro m c h
    by_cases hterm : isPodTerminated statusOf pr.2 = true
    · rw [List.foldl_cons, anpStep_term statusOf (m, c) pr hterm]
      exact ih m c (fun qr hq => h qr (List.mem_cons_of_mem _ hq))
    · have htermf := bool_eq_false_of_ne_true hterm
      rw [List.foldl_cons, anpStep_live statusOf (m, c) pr htermf,
        ih _ _ (fun qr hq => h qr (List.mem_cons_of_mem _ hq))]
      exact ppvFold_preserve_foreign pr.2 uid v (h pr (List.mem_cons_self _ _))
        pr.2.annotations m c

theorem anpFold_presence (statusOf : String → Option PodStatus)
    (pods : List (Nat × Pod)) (pr : Nat × Pod) (v : String) :
    ∀ (m : FsResizeMap) (c c₀ : Nat), c₀ ≤ c →
      pr ∈ pods → (pods.map (fun x => x.2.uid)).Nodup →
      isPodTerminated statusOf pr.2 = false →
      (getVolumeFsResizeAnnKey v, "yes") ∈ pr.2.annotations →
      ∃ e, lookupFs (pods.foldl (anpStep statusOf) (m, c)).1 pr.2.uid v = some e ∧
        e.pod = pr.2 ∧ e.volumeName = v ∧ c₀ ≤ e.podAddr := by
  induction pods with
  | nil => intro m c c₀ hc hmem; simp at hmem
  | cons qr rest ih =>
    intro m c c₀ hc hmem hnd hterm hann
    rw [List.map_cons] at hnd
    have hnd1 := (List.nodup_cons.mp hnd).1
    have hnd2 := (List.nodup_cons.mp hnd).2
    rcases List.mem_cons.mp hmem with rfl | hmem2
    · rw [List.foldl_cons, anpStep_live statusOf (m, c) pr hterm]
      have hforeign : ∀ xr ∈ rest, ¬ xr.2.uid = pr.2.uid := by
        intro xr hx hEqu
        exact hnd1 (List.mem_map.mpr ⟨xr, hx, hEqu⟩)
      obtain ⟨e, he1, he2⟩ := ppvFold_presence pr.2 v pr.2.annotations m c c₀ hc hann
      refine ⟨e, ?_, he2⟩
      rw [anpFold_preserve_foreign statusOf pr.2.uid v rest _ _ hforeign]
      exact he1
    · by_cases hterm2 : isPodTerminated statusOf qr.2 = true
      · rw [List.foldl_cons, anpStep_term statusOf (m, c) qr hterm2]
        exact ih m c c₀ hc hmem2 hnd2 hterm hann
      · have htermf := bool_eq_false_of_ne_true hterm2
        rw [List.foldl_cons, anpStep_live statusOf (m, c) qr htermf]
        exact ih _ _ c₀ (le_trans hc (ppvFold_counter_mono qr.2 qr.2.annotations m c))
          hmem2 hnd2 hterm hann

/-- C5: in one populator iteration started on an empty cache, an entry is
enqueued for exactly those (pod, volume) pairs where the pod is not
terminated — judged by the status provider result when available, else the
pod status as fallback — and the pod carries the handshake annotation for
that volume with value exactly "yes"; the volume logical name of the entry
is the one decoded from the annotation key, and the stored pod is a deep
copy — its address is fresh (at least the counter), hence distinct from
every shared pod pointer — whose snapshot equals the pod. -/
theorem populate_enqueues_exactly (statusOf : String → Option PodStatus)
    (pods : List (Nat × Pod)) (c₀ : Nat) (uid v : String) (e : VolumeToResize)
    (hnd : (pods.map (fun x => x.2.uid)).Nodup) (haddr : ∀ pr ∈ pods, pr.1 < c₀) :
    (lookupFs (addNewPods [] c₀ statusOf pods).1 uid v = some e →
      ∃ pr ∈ pods, isPodTerminated statusOf pr.2 = false ∧ pr.2.uid = uid ∧
        (getVolumeFsResizeAnnKey v, "yes") ∈ pr.2.annotations ∧
        e.pod = pr.2 ∧ e.volumeName = v ∧ c₀ ≤ e.podAddr ∧
        (∀ qr ∈ pods, ¬ e.podAddr = qr.1)) ∧
    (∀ pr ∈ pods, isPodTerminated statusOf pr.2 = false →
      (getVolumeFsResizeAnnKey v, "yes") ∈ pr.2.annotations →
      ∃ e2, lookupFs (addNewPods [] c₀ statusOf pods).1 pr.2.uid v = some e2 ∧
        e2.pod = pr.2 ∧ e2.volumeName = v ∧ c₀ ≤ e2.podAddr) := by
  constructor
  · intro h
    unfold addNewPods at h
    rcases anpFold_lookup_src statusOf pods [] c₀ uid v e h with
      hold | ⟨pr, hp, h1, h2, h3, h4, h5, h6⟩
    · simp [lookupFs, lookupAssoc] at hold
    · refine ⟨pr, hp, h1, h2, h3, h4, h5, h6, ?_⟩
      intro qr hq hEq
      have := haddr qr hq
      omega
  · intro pr hp hterm hann
    unfold addNewPods
    exact anpFold_presence statusOf pods pr v [] c₀ c₀ (le_refl _) hp hnd hterm hann

/-- Witness for C5 at a concrete input: one running pod carrying the
yes-valued handshake annotation for pv1 yields an entry holding a copy of
the pod at a fresh address. -/
theorem populate_enqueues_exactly_witness :
    ∃ e2, lookupFs (addNewPods [] 1 (fun _ => none)
        [(0, { name := "a", namespaceName := "d", uid := "u1", nodeName := "n1",
               annotations := [(getVolumeFsResizeAnnKey "pv1", "yes")],
               status := ⟨PodPhase.Running⟩ })]).1 "u1" "pv1" = some e2 ∧
      e2.pod = { name := "a", namespaceName := "d", uid := "u1", nodeName := "n1",
                 annotations := [(getVolumeFsResizeAnnKey "pv1", "yes")],
                 status := ⟨PodPhase.Running⟩ } ∧
      e2.volumeName = "pv1" ∧ 1 ≤ e2.podAddr :=
  (populate_enqueues_exactly (fun _ => none)
    [(0, { name := "a", namespaceName := "d", uid := "u1", nodeName := "n1",
           annotations := [(getVolumeFsResizeAnnKey "pv1", "yes")],
           status := ⟨PodPhase.Running⟩ })] 1 "u1" "pv1"
    ⟨0, { name := "a", namespaceName := "d", uid := "u1", nodeName := "n1",
          annotations := [], status := ⟨PodPhase.Running⟩ }, "pv1"⟩
    (by simp)
    (by intro pr hp; simp at hp; subst hp; decide)).2
    (0, { name := "a", namespaceName := "d", uid := "u1", nodeName := "n1",
          annotations := [(getVolumeFsResizeAnnKey "pv1", "yes")],
          status := ⟨PodPhase.Running⟩ })
    (List.mem_cons_self _ _) rfl (List.mem_cons_self _ _)

/-- C6: the populator is level-triggered and removes nothing: while a pod
keeps its yes-valued handshake annotation for a volume and is not
terminated, the corresponding entry is in the node cache after a populate,
the drain leaves the cache empty, and a populate run after the drain
recreates the entry. -/
theorem level_triggered_reappearance (statusOf : String → Option PodStatus)
    (pods : List (Nat × Pod)) (m0 : FsResizeMap) (c₀ c₁ : Nat) (pr : Nat × Pod) (v : String)
    (hnd : (pods.map (fun x => x.2.uid)).Nodup) (hp : pr ∈ pods)
    (hterm : isPodTerminated statusOf pr.2 = false)
    (hann : (getVolumeFsResizeAnnKey v, "yes") ∈ pr.2.annotations) :
    (∃ e, lookupFs (addNewPods m0 c₀ statusOf pods).1 pr.2.uid v = some e ∧
      e.pod = pr.2 ∧ e.volumeName = v) ∧
    (getVolumesToResize (addNewPods m0 c₀ statusOf pods).1).2 = [] ∧
    (∃ e, lookupFs (addNewPods
        (getVolumesToResize (addNewPods m0 c₀ statusOf pods).1).2 c₁ statusOf pods).1
        pr.2.uid v = some e ∧ e.pod = pr.2 ∧ e.volumeName = v) := by
  refine ⟨?_, rfl, ?_⟩
  · unfold addNewPods
    obtain ⟨e, h1, h2, h3, _⟩ :=
      anpFold_presence statusOf pods pr v m0 c₀ c₀ (le_refl _) hp hnd hterm hann
    exact ⟨e, h1, h2, h3⟩
  · unfold addNewPods
    obtain ⟨e, h1, h2, h3, _⟩ :=
      anpFold_presence statusOf pods pr v
        (getVolumesToResize (addNewPods m0 c₀ statusOf pods).1).2 c₁ c₁ (le_refl _)
        hp hnd hterm hann
    exact ⟨e, h1, h2, h3⟩

/-- Witness for C6 at a concrete input: the entry for the annotated pod is
present after the first populate, the drain empties the cache, and the
entry is present again after the second populate. -/
theorem level_triggered_reappearance_witness :
    (∃ e, lookupFs (addNewPods [] 1 (fun _ => none)
        [(0, { name := "a", namespaceName := "d", uid := "u1", nodeName := "n1",
               annotations := [(getVolumeFsResizeAnnKey "pv1", "yes")],
               status := ⟨PodPhase.Running⟩ })]).1 "u1" "pv1" = some e ∧
      e.pod = { name := "a", namespaceName := "d", uid := "u1", nodeName := "n1",
                annotations := [(getVolumeFsResizeAnnKey "pv1", "yes")],
                status := ⟨PodPhase.Running⟩ } ∧ e.volumeName = "pv1") ∧
    (getVolumesToResize (addNewPods [] 1 (fun _ => none)
        [(0, { name := "a", namespaceName := "d", uid := "u1", nodeName := "n1",
               annotations := [(getVolumeFsResizeAnnKey "pv1", "yes")],
               status := ⟨PodPhase.Running⟩ })]).1).2 = [] ∧
    (∃ e, lookupFs (addNewPods
        (getVolumesToResize (addNewPods [] 1 (fun _ => none)
          [(0, { name := "a", namespaceName := "d", uid := "u1", nodeName := "n1",
                 annotations := [(getVolumeFsResizeAnnKey "pv1", "yes")],
                 status := ⟨PodPhase.Running⟩ })]).1).2 2 (fun _ => none)
        [(0, { name := "a", namespaceName := "d", uid := "u1", nodeName := "n1",
               annotations := [(getVolumeFsResizeAnnKey "pv1", "yes")],
               status := ⟨PodPhase.Running⟩ })]).1 "u1" "pv1" = some e ∧
      e.pod = { name := "a", namespaceName := "d", uid := "u1", nodeName := "n1",
                annotations := [(getVolumeFsResizeAnnKey "pv1", "yes")],
                status := ⟨PodPhase.Running⟩ } ∧ e.volumeName = "pv1") :=
  level_triggered_reappearance (fun _ => none)
    [(0, { name := "a", namespaceName := "d", uid := "u1", nodeName := "n1",
           annotations := [(getVolumeFsResizeAnnKey "pv1", "yes")],
           status := ⟨PodPhase.Running⟩ })] [] 1 2
    (0, { name := "a", namespaceName := "d", uid := "u1", nodeName := "n1",
          annotations := [(getVolumeFsResizeAnnKey "pv1", "yes")],
          status := ⟨PodPhase.Running⟩ }) "pv1"
    (by simp) (List.mem_cons_self _ _) rfl (List.mem_cons_self _ _)
